import Mathlib

/-!
Verification of the godbc ODBC adapter library.

Shallow embedding of the pure algorithmic core of the library:
timestamp fraction truncation, decimal-string validation, SQLState
classification, value conversion for binding, statement close,
transaction commit/rollback, batch dispatch, UTF-16 conversion,
chunked column retrieval, and named-parameter rewriting.

Go byte strings are modelled as `List Char` (the sources only ever
inspect ASCII bytes); machine integers as `Nat`/`Int` with explicit
`% 2 ^ w` where a Go conversion can overflow.
-/

namespace Godbc

/-! ### ODBC constants (src/types.go) -/

def SQL_SUCCESS : Int := 0
def SQL_SUCCESS_WITH_INFO : Int := 1
def SQL_ERROR : Int := -1
def SQL_NO_DATA : Int := 100
def SQL_NULL_DATA : Int := -1
def SQL_COMMIT : Int := 0
def SQL_ROLLBACK : Int := 1

/-- IsSuccess from src/types.go: `ret == SQL_SUCCESS || ret == SQL_SUCCESS_WITH_INFO`. -/
def IsSuccess (ret : Int) : Bool :=
  ret = SQL_SUCCESS ∨ ret = SQL_SUCCESS_WITH_INFO

/-! ### Claim C3: timestamp fraction truncation (src/convert.go, truncateFraction)

`truncateFraction` takes the nanosecond field (a non-negative Go `int`,
modelled as `Nat`; Go integer division on non-negative operands agrees
with `Nat` division) and a `TimestampPrecision` (a Go `int`, modelled as
`Int`).  The result is converted to `SQLUINTEGER` (`uint32`), modelled by
an explicit `% 2 ^ 32`. -/

def truncateFraction (nanos : Nat) (precision : Int) : Nat :=
  if precision = 0 then 0
  else if precision = 3 then ((nanos / 1000000) * 1000000) % 2 ^ 32
  else if precision = 6 then ((nanos / 1000) * 1000) % 2 ^ 32
  else if precision = 9 then nanos % 2 ^ 32
  else ((nanos / 1000000) * 1000000) % 2 ^ 32

/-! ### Claim C5: decimal string validation (src/types.go, isValidDecimalString) -/

/-- ASCII digit test, as the source writes `c >= '0' && c <= '9'`. -/
def isDigitChar (c : Char) : Bool :=
  decide ('0' ≤ c) && decide (c ≤ '9')

/-- The scanning loop of `isValidDecimalString`, with the two mutable
flags `hasDigit` and `hasDot` made explicit parameters. -/
def decimalScan : List Char → Bool → Bool → Bool
  | [], hasDigit, _ => hasDigit
  | c :: rest, hasDigit, hasDot =>
    if isDigitChar c then decimalScan rest true hasDot
    else if c = '.' then
      if hasDot then false else decimalScan rest hasDigit true
    else false

/-- isValidDecimalString from src/types.go: empty string is rejected; a
leading `-` or `+` advances the start; a bare sign is rejected; the rest
is scanned tracking `hasDigit`/`hasDot`. -/
def isValidDecimalString (s : List Char) : Bool :=
  match s with
  | [] => false
  | c0 :: rest =>
    if c0 = '-' ∨ c0 = '+' then
      match rest with
      | [] => false
      | _ :: _ => decimalScan rest false false
    else decimalScan (c0 :: rest) false false

/-- Spec-side: every character is an ASCII digit. -/
def AllDigits (l : List Char) : Prop := ∀ c ∈ l, isDigitChar c = true

/-- Spec-side: the regular language `\d+ | \d*\.\d+ | \d+\.\d*`, i.e. a
body with at most one dot, at least one digit and nothing else. -/
def DecimalBodyRegex (l : List Char) : Prop :=
  (l ≠ [] ∧ AllDigits l) ∨
  ∃ a b, l = a ++ '.' :: b ∧ AllDigits a ∧ AllDigits b ∧ (a ≠ [] ∨ b ≠ [])

/-- Spec-side: the regular language `[+-]?(\d+|\d*\.\d+|\d+\.\d*)`. -/
def DecimalRegex (s : List Char) : Prop :=
  ∃ sg body, (sg = [] ∨ sg = ['+'] ∨ sg = ['-']) ∧
    DecimalBodyRegex body ∧ s = sg ++ body

/-! ### Claim C6: SQLState classification (src/unnamed/part_001)

An ODBC error value is either a single `Error` record or an `Errors`
chain of records; `nil` Go errors are modelled with `Option`. -/

structure ODBCError where
  sqlState : List Char
  nativeError : Int
  message : List Char

inductive GoError
  | single (e : ODBCError)
  | multi (es : List ODBCError)

/-- The check `len(st) >= 2 && st[:2] == "08"` used by the source. -/
def statePrefix08 (st : List Char) : Bool :=
  decide (2 ≤ st.length) && decide (st.take 2 = ['0', '8'])

/-- IsConnectionError from src/unnamed/part_001: a `*Error` is tested on
its own SQLState, an `Errors` chain on its first record. -/
def IsConnectionError : Option GoError → Bool
  | none => false
  | some (.single e) => statePrefix08 e.sqlState
  | some (.multi []) => false
  | some (.multi (e0 :: _)) => statePrefix08 e0.sqlState

/-- IsDataTruncation from src/unnamed/part_001: only the `*Error` shape
is examined; an `Errors` chain falls through to `false`. -/
def IsDataTruncation : Option GoError → Bool
  | none => false
  | some (.single e) => decide (e.sqlState = ['0', '1', '0', '0', '4'])
  | some (.multi _) => false

/-- The SQLState that `IsRetryable` extracts: a single record's state,
or the first record of a nonempty chain, or `""`. -/
def leadSqlState : GoError → List Char
  | .single e => e.sqlState
  | .multi [] => []
  | .multi (e0 :: _) => e0.sqlState

/-- IsRetryable from src/unnamed/part_001: extract the SQLState, reject
the empty state, accept the six-state switch, then the `08` prefix. -/
def IsRetryable : Option GoError → Bool
  | none => false
  | some v =>
    let st := leadSqlState v
    if st = [] then false
    else if st = ['0', '8', '0', '0', '1'] ∨ st = ['0', '8', 'S', '0', '1']
        ∨ st = ['4', '0', '0', '0', '1'] ∨ st = ['H', 'Y', 'T', '0', '0']
        ∨ st = ['H', 'Y', 'T', '0', '1'] ∨ st = ['4', '0', '0', '0', '3'] then
      true
    else statePrefix08 st

/-- Spec-side: the SQLState begins with `"08"`. -/
def Begins08 (st : List Char) : Prop := ∃ t, st = '0' :: '8' :: t

/-- Spec-side: the retryable set of the claim: states beginning with
`08`, plus `40001`, `40003`, `HYT00`, `HYT01`. -/
def RetryableState (st : List Char) : Prop :=
  Begins08 st ∨ st = ['4', '0', '0', '0', '1'] ∨ st = ['4', '0', '0', '0', '3']
  ∨ st = ['H', 'Y', 'T', '0', '0'] ∨ st = ['H', 'Y', 'T', '0', '1']

/-! ### Claim C9: binding Go `uint` and `uint64` values
(src/convert.go, convertToODBC, the `uint` and `uint64` cases) -/

def SQL_C_SBIGINT : Int := -25
def SQL_BIGINT : Int := -5
def SQL_C_CHAR : Int := 1
def SQL_VARCHAR : Int := 12

/-- The two's-complement reinterpretation performed by the Go
conversion `int64(v)` on a `uint` value `v < 2^64`. -/
def goIntCast64 (v : Nat) : Int :=
  if v < 2 ^ 63 then (v : Int) else (v : Int) - 2 ^ 64

/-- The parameter buffer allocated by `convertToODBC` for the cases
modelled here. -/
inductive BindBuffer
  | sbigint (v : Int)
  | chars (s : List Char)
deriving DecidableEq

/-- The descriptor tuple `(buffer, C type, SQL type, column size,
decimal digits, length indicator)` returned by `convertToODBC`. -/
structure ODBCBinding where
  buffer : BindBuffer
  cType : Int
  sqlType : Int
  columnSize : Nat
  decimalDigits : Int
  lenIndicator : Int
deriving DecidableEq

inductive GoUnsigned
  | goUint (v : Nat)
  | goUint64 (v : Nat)

/-- The `uint` and `uint64` cases of convertToODBC (src/convert.go):
`uint` is cast with a plain `int64(v)` and bound as a signed bigint;
`uint64` is formatted with `strconv.FormatUint(v, 10)` and bound as a
character string typed `SQL_VARCHAR`. -/
def convertToODBC : GoUnsigned → ODBCBinding
  | .goUint v => ⟨.sbigint (goIntCast64 v), SQL_C_SBIGINT, SQL_BIGINT, 20, 0, 8⟩
  | .goUint64 v =>
    let s := (Nat.repr v).toList
    ⟨.chars s, SQL_C_CHAR, SQL_VARCHAR, s.length, 0, s.length⟩

/-! ### Claim C8: statement close idempotence (src/stmt.go, Stmt.Close) -/

structure StmtState where
  closed : Bool
  handle : Nat
  paramBuffers : List BindBuffer
  paramLengths : List Int
  outputParams : List Nat
deriving DecidableEq

inductive FreeEvent
  | freeHandle (h : Nat)
deriving DecidableEq

/-- Stmt.Close from src/stmt.go: under the lock, a closed statement
returns nil at once; otherwise the closed flag is set, a nonzero handle
is freed and zeroed, and the parameter buffers are cleared.  The result
is `(returned error, new state, frees performed)`. -/
def stmtClose (s : StmtState) : Option Unit × StmtState × List FreeEvent :=
  if s.closed then (none, s, [])
  else
    let freed := if s.handle ≠ 0 then [FreeEvent.freeHandle s.handle] else []
    (none,
     { closed := true, handle := 0, paramBuffers := [], paramLengths := [],
       outputParams := [] },
     freed)

/-! ### Claim C7: transaction commit/rollback pairing (src/tx.go)

Begin-transaction (src/conn.go, BeginTx) sets the autocommit attribute
OFF and `inTx` true; Commit and Rollback run from that state.  The
driver's responses to EndTran and the two SetConnectAttr calls are
inputs; the returned triple is `(error, new state, calls issued)`. -/

def SQL_AUTOCOMMIT_ON : Nat := 1
def SQL_MODE_READ_WRITE : Nat := 0

structure ConnState where
  inTx : Bool
deriving DecidableEq

inductive ConnEvent
  | endTran (completion : Int)
  | setAutocommit (value : Nat)
  | setAccessMode (value : Nat)
deriving DecidableEq

/-- Whether each driver call issued by Commit/Rollback returns a
success code (`IsSuccess` of its return). -/
structure TxDriverResp where
  endTranOK : Bool
  setAutocommitOK : Bool
  setAccessModeOK : Bool

/-- Tx.Commit from src/tx.go: nil if no transaction is live; otherwise
issue EndTran(SQL_COMMIT), clear `inTx`, attempt the autocommit
restore (reporting an error when the restore fails, whatever EndTran
returned), attempt the access-mode reset best-effort, and finally
report an EndTran failure. -/
def txCommit (c : ConnState) (resp : TxDriverResp) :
    Option Unit × ConnState × List ConnEvent :=
  if c.inTx = false then (none, c, [])
  else
    let c1 : ConnState := { inTx := false }
    if resp.setAutocommitOK = false then
      (some (), c1,
       [ConnEvent.endTran SQL_COMMIT, ConnEvent.setAutocommit SQL_AUTOCOMMIT_ON])
    else
      let evs := [ConnEvent.endTran SQL_COMMIT,
        ConnEvent.setAutocommit SQL_AUTOCOMMIT_ON,
        ConnEvent.setAccessMode SQL_MODE_READ_WRITE]
      if resp.endTranOK = false then (some (), c1, evs) else (none, c1, evs)

/-- Tx.Rollback from src/tx.go: identical to Commit with completion
code SQL_ROLLBACK. -/
def txRollback (c : ConnState) (resp : TxDriverResp) :
    Option Unit × ConnState × List ConnEvent :=
  if c.inTx = false then (none, c, [])
  else
    let c1 : ConnState := { inTx := false }
    if resp.setAutocommitOK = false then
      (some (), c1,
       [ConnEvent.endTran SQL_ROLLBACK, ConnEvent.setAutocommit SQL_AUTOCOMMIT_ON])
    else
      let evs := [ConnEvent.endTran SQL_ROLLBACK,
        ConnEvent.setAutocommit SQL_AUTOCOMMIT_ON,
        ConnEvent.setAccessMode SQL_MODE_READ_WRITE]
      if resp.endTranOK = false then (some (), c1, evs) else (none, c1, evs)

/-! ### Claim C10: batch execution dispatch (src/stmt.go, Stmt.ExecBatch) -/

/-- BatchResult from src/types.go; the zero value `&BatchResult{}` has
total 0 and nil slices. -/
structure BatchResult where
  totalRowsAffected : Int
  rowCounts : List Int
  errors : List (Option Unit)
deriving DecidableEq

inductive BatchErr
  | badConn
deriving DecidableEq

/-- Stmt.ExecBatch from src/stmt.go up to its first driver
interaction: a closed statement yields `driver.ErrBadConn`; an empty
list of parameter sets yields `&BatchResult{}` and nil error with no
driver call; only otherwise does the array-binding / row-by-row body
run.  The body is abstracted as a parameter receiving the parameter
sets and the pre-allocated result, returning the final result and the
driver calls it made — the theorem quantifies over every body. -/
def ExecBatch {α : Type} (closed : Bool) (paramSets : List (List Int))
    (body : List (List Int) → BatchResult → BatchResult × List α) :
    Except BatchErr (BatchResult × List α) :=
  if closed then .error .badConn
  else if paramSets.length = 0 then .ok (⟨0, [], []⟩, [])
  else
    let init : BatchResult :=
      ⟨0, List.replicate paramSets.length 0, List.replicate paramSets.length none⟩
    .ok (body paramSets init)

/-! ### Claim C4: UTF-16 encoding and decoding
(src/convert.go, stringToUTF16; src/rows.go, utf16ToString)

Go runes are modelled as `Nat` scalar values, and the output rune list
stands for the final Go string (identical for the valid scalars the
claims quantify over); the `uint16` casts are explicit `% 2 ^ 16`. -/

/-- The encoding loop of stringToUTF16 (the source then appends a zero
terminator, see `stringToUTF16`). -/
def stringToUTF16Body : List Nat → List Nat
  | [] => []
  | r :: rest =>
    if 0xFFFF < r then
      (((r - 0x10000) >>> 10) + 0xD800) % 2 ^ 16
        :: ((((r - 0x10000) &&& 0x3FF) + 0xDC00) % 2 ^ 16)
        :: stringToUTF16Body rest
    else r % 2 ^ 16 :: stringToUTF16Body rest

/-- stringToUTF16 from src/convert.go: encode every rune, low scalars
directly, others as a surrogate pair, and append a null terminator. -/
def stringToUTF16 (runes : List Nat) : List Nat :=
  stringToUTF16Body runes ++ [0]

/-- utf16ToString from src/rows.go: a high surrogate followed by a low
surrogate decodes as a pair; any other code unit is passed through. -/
def utf16ToString : List Nat → List Nat
  | [] => []
  | [r] => [r]
  | r :: r2 :: rest2 =>
    if 0xD800 ≤ r ∧ r ≤ 0xDBFF then
      if 0xDC00 ≤ r2 ∧ r2 ≤ 0xDFFF then
        (((r - 0xD800) <<< 10) + (r2 - 0xDC00) + 0x10000) :: utf16ToString rest2
      else r :: utf16ToString (r2 :: rest2)
    else r :: utf16ToString (r2 :: rest2)

/-- Spec-side: the Unicode scalar values that `[]rune(s)` of a valid
UTF-8 Go string can produce: at most U+10FFFF and never a surrogate. -/
def ValidScalar (r : Nat) : Prop :=
  r ≤ 0x10FFFF ∧ ¬(0xD800 ≤ r ∧ r ≤ 0xDFFF)

/-! ### Claim C1: chunked retrieval (src/rows.go, getString / getBytes /
getWideString)

The driver is modelled by the get-data protocol the claim assumes: for
character data it fills the buffer minus one terminator slot, reports
the total length of the data remaining before the call in the
indicator, returns SUCCESS_WITH_INFO while more remains, SUCCESS on
the final piece, and NO_DATA once exhausted.  The driver state is the
data not yet returned, `none` once exhausted.  Buffer contents are
represented by the bytes the driver wrote (`written`); every slice the
Go code takes of the buffer lies inside that prefix. -/

/-- Result of one GetData call: return code, bytes (or UTF-16 units)
written at the head of the buffer, indicator, and next driver state. -/
structure GetDataOut where
  ret : Int
  written : List Nat
  indicator : Int
  next : Option (List Nat)

/-- GetData for SQL_C_CHAR: one terminator byte is reserved. -/
def getDataChar : Option (List Nat) → Nat → GetDataOut
  | none, _ => ⟨SQL_NO_DATA, [], 0, none⟩
  | some D, bufLen =>
    if bufLen - 1 < D.length then
      ⟨SQL_SUCCESS_WITH_INFO, D.take (bufLen - 1), D.length, some (D.drop (bufLen - 1))⟩
    else
      ⟨SQL_SUCCESS, D, D.length, none⟩

/-- GetData for SQL_C_BINARY: no terminator, the full buffer is data. -/
def getDataBin : Option (List Nat) → Nat → GetDataOut
  | none, _ => ⟨SQL_NO_DATA, [], 0, none⟩
  | some D, bufLen =>
    if bufLen < D.length then
      ⟨SQL_SUCCESS_WITH_INFO, D.take bufLen, D.length, some (D.drop bufLen)⟩
    else
      ⟨SQL_SUCCESS, D, D.length, none⟩

/-- GetData for SQL_C_WCHAR: the buffer length is in bytes, data is
UTF-16 code units (2 bytes each), one unit is reserved for the
terminator, and the indicator is in bytes. -/
def getDataWide : Option (List Nat) → Nat → GetDataOut
  | none, _ => ⟨SQL_NO_DATA, [], 0, none⟩
  | some D, bufLenBytes =>
    if bufLenBytes / 2 - 1 < D.length then
      ⟨SQL_SUCCESS_WITH_INFO, D.take (bufLenBytes / 2 - 1), 2 * D.length,
       some (D.drop (bufLenBytes / 2 - 1))⟩
    else
      ⟨SQL_SUCCESS, D, 2 * D.length, none⟩

/-- The per-column retrieval outcome: error, SQL NULL, or a value. -/
inductive FetchResult
  | fetchErr
  | nullValue
  | value (data : List Nat)
deriving DecidableEq

/-- The initial buffer size of getString: `colSize + 1` clamped to
`[256, 65536]`. -/
def clampBufChar (colSize : Nat) : Nat :=
  if colSize + 1 < 256 then 256
  else if 65536 < colSize + 1 then 65536
  else colSize + 1

/-- The initial buffer size of getBytes: `colSize` clamped to
`[256, 65536]`. -/
def clampBufBin (colSize : Nat) : Nat :=
  if colSize < 256 then 256
  else if 65536 < colSize then 65536
  else colSize

/-- The initial buffer size of getWideString in code units:
`colSize + 1` clamped to `[256, 32768]`. -/
def clampBufWide (colSize : Nat) : Nat :=
  if colSize + 1 < 256 then 256
  else if 32768 < colSize + 1 then 32768
  else colSize + 1

theorem clampBufChar_ge (colSize : Nat) : 256 ≤ clampBufChar colSize := by
  unfold clampBufChar
  split
  · omega
  · split <;> omega

theorem clampBufBin_ge (colSize : Nat) : 256 ≤ clampBufBin colSize := by
  unfold clampBufBin
  split
  · omega
  · split <;> omega

theorem clampBufWide_ge (colSize : Nat) : 256 ≤ clampBufWide colSize := by
  unfold clampBufWide
  split
  · omega
  · split <;> omega

/-- The truncation loop of getString (src/rows.go): while bytes remain,
request `min (remaining+1) bufSize`, break on a failed call, NO_DATA or
a NULL indicator, otherwise append `buf[:copyLen]` with
`copyLen = min indicator (chunkSize - 1)` and decrease `remaining` by
`copyLen`.  `2 ≤ bufSize` (the source guarantees `256 ≤ bufSize`) makes
every iteration progress. -/
def getStringLoop (bufSize : Nat) (hbuf : 2 ≤ bufSize) :
    Nat → Option (List Nat) → List Nat → List Nat
  | remaining, st, acc =>
    if remaining = 0 then acc
    else
      let chunkSize := min (remaining + 1) bufSize
      let out := getDataChar st chunkSize
      if ¬ (IsSuccess out.ret = true) ∧ ¬ (out.ret = SQL_SUCCESS_WITH_INFO) then acc
      else if out.ret = SQL_NO_DATA ∨ out.indicator = SQL_NULL_DATA then acc
      else
        getStringLoop bufSize hbuf
          (remaining - min out.indicator.toNat (chunkSize - 1)) out.next
          (acc ++ out.written.take (min out.indicator.toNat (chunkSize - 1)))
termination_by remaining st acc => remaining * 2 + (if st.isSome then 1 else 0)
decreasing_by
  rename_i hr _ hnd
  cases st with
  | none => exact absurd (Or.inl rfl) hnd
  | some D =>
    by_cases hbig : min (remaining + 1) bufSize - 1 < D.length
    · rw [show getDataChar (some D) (min (remaining + 1) bufSize)
          = ⟨SQL_SUCCESS_WITH_INFO, D.take (min (remaining + 1) bufSize - 1),
             (D.length : Int), some (D.drop (min (remaining + 1) bufSize - 1))⟩ from by
        simp [getDataChar, hbig]]
      simp
      omega
    · rw [show getDataChar (some D) (min (remaining + 1) bufSize)
          = ⟨SQL_SUCCESS, D, (D.length : Int), none⟩ from by
        simp [getDataChar, hbig]]
      simp
      omega

/-- The truncation loop of getBytes (src/rows.go): as `getStringLoop`
but with no terminator slot: the chunk request is `min remaining
bufSize` and `copyLen = min indicator chunkSize`. -/
def getBytesLoop (bufSize : Nat) (hbuf : 1 ≤ bufSize) :
    Nat → Option (List Nat) → List Nat → List Nat
  | remaining, st, acc =>
    if remaining = 0 then acc
    else
      let chunkSize := min remaining bufSize
      let out := getDataBin st chunkSize
      if ¬ (IsSuccess out.ret = true) ∧ ¬ (out.ret = SQL_SUCCESS_WITH_INFO) then acc
      else if out.ret = SQL_NO_DATA ∨ out.indicator = SQL_NULL_DATA then acc
      else
        getBytesLoop bufSize hbuf
          (remaining - min out.indicator.toNat chunkSize) out.next
          (acc ++ out.written.take (min out.indicator.toNat chunkSize))
termination_by remaining st acc => remaining * 2 + (if st.isSome then 1 else 0)
decreasing_by
  rename_i hr _ hnd
  cases st with
  | none => exact absurd (Or.inl rfl) hnd
  | some D =>
    by_cases hbig : min remaining bufSize < D.length
    · rw [show getDataBin (some D) (min remaining bufSize)
          = ⟨SQL_SUCCESS_WITH_INFO, D.take (min remaining bufSize),
             (D.length : Int), some (D.drop (min remaining bufSize))⟩ from by
        simp [getDataBin, hbig]]
      simp
      omega
    · rw [show getDataBin (some D) (min remaining bufSize)
          = ⟨SQL_SUCCESS, D, (D.length : Int), none⟩ from by
        simp [getDataBin, hbig]]
      simp
      omega

/-- The truncation loop of getWideString (src/rows.go): counts in
UTF-16 code units; each call passes `chunkUnits * 2` bytes and copies
`min (indicator / 2) (chunkUnits - 1)` units. -/
def getWideLoop (bufSize : Nat) (hbuf : 2 ≤ bufSize) :
    Nat → Option (List Nat) → List Nat → List Nat
  | remaining, st, acc =>
    if remaining = 0 then acc
    else
      let chunkUnits := min (remaining + 1) bufSize
      let out := getDataWide st (chunkUnits * 2)
      if ¬ (IsSuccess out.ret = true) ∧ ¬ (out.ret = SQL_SUCCESS_WITH_INFO) then acc
      else if out.ret = SQL_NO_DATA ∨ out.indicator = SQL_NULL_DATA then acc
      else
        getWideLoop bufSize hbuf
          (remaining - min (out.indicator.toNat / 2) (chunkUnits - 1)) out.next
          (acc ++ out.written.take (min (out.indicator.toNat / 2) (chunkUnits - 1)))
termination_by remaining st acc => remaining * 2 + (if st.isSome then 1 else 0)
decreasing_by
  rename_i hr _ hnd
  cases st with
  | none => exact absurd (Or.inl rfl) hnd
  | some D =>
    by_cases hbig : min (remaining + 1) bufSize * 2 / 2 - 1 < D.length
    · rw [show getDataWide (some D) (min (remaining + 1) bufSize * 2)
          = ⟨SQL_SUCCESS_WITH_INFO,
             D.take (min (remaining + 1) bufSize * 2 / 2 - 1),
             (2 * D.length : Int),
             some (D.drop (min (remaining + 1) bufSize * 2 / 2 - 1))⟩ from by
        simp only [getDataWide]
        rw [if_pos hbig]]
      simp
      omega
    · rw [show getDataWide (some D) (min (remaining + 1) bufSize * 2)
          = ⟨SQL_SUCCESS, D, (2 * D.length : Int), none⟩ from by
        simp only [getDataWide]
        rw [if_neg hbig]]
      simp
      omega

/-- Rows.getString from src/rows.go, run against the protocol driver
holding value `D`: clamp the buffer, issue the first GetData, surface
an error or NULL, enter the truncation loop keeping the first
`bufSize - 1` bytes when the value was truncated, and otherwise return
the `indicator` bytes that fit (the final null-terminator fallback is
unreachable under the protocol driver and returns the written bytes up
to the terminator). -/
def getStringGo (colSize : Nat) (D : List Nat) : FetchResult :=
  let bufSize := clampBufChar colSize
  let out := getDataChar (some D) bufSize
  if ¬ (IsSuccess out.ret = true) ∧ ¬ (out.ret = SQL_SUCCESS_WITH_INFO) then
    FetchResult.fetchErr
  else if out.indicator = SQL_NULL_DATA then FetchResult.nullValue
  else if out.ret = SQL_SUCCESS_WITH_INFO ∧ (bufSize : Int) - 1 < out.indicator then
    FetchResult.value (getStringLoop bufSize
      (Nat.le_trans (by norm_num) (clampBufChar_ge colSize))
      (out.indicator.toNat - (bufSize - 1)) out.next
      (out.written.take (bufSize - 1)))
  else if 0 ≤ out.indicator ∧ out.indicator < (bufSize : Int) then
    FetchResult.value (out.written.take out.indicator.toNat)
  else
    FetchResult.value (out.written.takeWhile (fun b => decide (¬ b = 0)))

/-- Rows.getBytes from src/rows.go under the protocol driver: as
`getStringGo` but binary — no terminator slot, the whole buffer is kept
on truncation, and the fit test is `indicator ≤ bufSize`. -/
def getBytesGo (colSize : Nat) (D : List Nat) : FetchResult :=
  let bufSize := clampBufBin colSize
  let out := getDataBin (some D) bufSize
  if ¬ (IsSuccess out.ret = true) ∧ ¬ (out.ret = SQL_SUCCESS_WITH_INFO) then
    FetchResult.fetchErr
  else if out.indicator = SQL_NULL_DATA then FetchResult.nullValue
  else if out.ret = SQL_SUCCESS_WITH_INFO ∧ (bufSize : Int) < out.indicator then
    FetchResult.value (getBytesLoop bufSize
      (Nat.le_trans (by norm_num) (clampBufBin_ge colSize))
      (out.indicator.toNat - bufSize) out.next
      (out.written.take bufSize))
  else if 0 ≤ out.indicator ∧ out.indicator ≤ (bufSize : Int) then
    FetchResult.value (out.written.take out.indicator.toNat)
  else
    FetchResult.value out.written

/-- Rows.getWideString from src/rows.go under the protocol driver, up
to the final `utf16ToString` conversion: the assembled UTF-16 code
units.  The buffer is `bufSize` code units (`bufSize * 2` bytes), the
indicator counts bytes, and on truncation the first `bufSize - 1` units
are kept. -/
def getWideUnitsGo (colSize : Nat) (D : List Nat) : FetchResult :=
  let bufSize := clampBufWide colSize
  let out := getDataWide (some D) (bufSize * 2)
  if ¬ (IsSuccess out.ret = true) ∧ ¬ (out.ret = SQL_SUCCESS_WITH_INFO) then
    FetchResult.fetchErr
  else if out.indicator = SQL_NULL_DATA then FetchResult.nullValue
  else if out.ret = SQL_SUCCESS_WITH_INFO
      ∧ ((bufSize : Int) - 1) * 2 < out.indicator then
    FetchResult.value (getWideLoop bufSize
      (Nat.le_trans (by norm_num) (clampBufWide_ge colSize))
      (out.indicator.toNat / 2 - (bufSize - 1)) out.next
      (out.written.take (bufSize - 1)))
  else if 0 ≤ out.indicator then
    FetchResult.value (out.written.take (min (out.indicator.toNat / 2) (bufSize - 1)))
  else
    FetchResult.value (out.written.takeWhile (fun c => decide (¬ c = 0)))

/-- Rows.getWideString: every value path of the source returns
`utf16ToString` of the units it assembled. -/
def getWideStringGo (colSize : Nat) (D : List Nat) : FetchResult :=
  match getWideUnitsGo colSize D with
  | FetchResult.value u => FetchResult.value (utf16ToString u)
  | r => r

/-! ### Claim C2: named-parameter compilation
(src/unnamed/part_003, ParseNamedParams)

The scanners return the rest of the input together with a length bound
so that the main loop's termination is evident. -/

/-- isIdentStart from src/unnamed/part_003: `_` or an ASCII letter. -/
def isIdentStart (c : Char) : Bool :=
  (decide ('a' ≤ c) && decide (c ≤ 'z'))
    || (decide ('A' ≤ c) && decide (c ≤ 'Z'))
    || decide (c = '_')

/-- isIdentChar from src/unnamed/part_003: ident start or ASCII digit. -/
def isIdentChar (c : Char) : Bool :=
  isIdentStart c || (decide ('0' ≤ c) && decide (c ≤ '9'))

/-- The quote-skipping loop of ParseNamedParams, entered just after an
opening quote `q`: consume up to and including the closing quote,
treating a doubled quote as an escape; an unterminated literal consumes
everything. -/
def scanQuote (q : Char) :
    (l : List Char) → List Char × { r : List Char // r.length ≤ l.length }
  | [] => ([], ⟨[], Nat.le_refl 0⟩)
  | c :: t =>
    if c = q then
      match t with
      | c2 :: t2 =>
        if c2 = q then
          let p := scanQuote q t2
          (c :: c2 :: p.1, ⟨p.2.val, by
            have := p.2.property
            simp only [List.length_cons]
            omega⟩)
        else ([c], ⟨c2 :: t2, by simp only [List.length_cons]; omega⟩)
      | [] => ([c], ⟨[], by simp⟩)
    else
      let p := scanQuote q t
      (c :: p.1, ⟨p.2.val, by
        have := p.2.property
        simp only [List.length_cons]
        omega⟩)

/-- The block-comment loop of ParseNamedParams, entered just after the
opening `/*`: consume up to and including `*/`; an unterminated comment
stops with one character left (the source loop runs while `i+1 < len`),
and that character is re-scanned by the main loop. -/
def scanBlock :
    (l : List Char) → List Char × { r : List Char // r.length ≤ l.length }
  | a :: b :: t =>
    if a = '*' ∧ b = '/' then
      ([a, b], ⟨t, by simp only [List.length_cons]; omega⟩)
    else
      let p := scanBlock (b :: t)
      (a :: p.1, ⟨p.2.val, by
        have := p.2.property
        simp only [List.length_cons] at *
        omega⟩)
  | l => ([], ⟨l, Nat.le_refl _⟩)

/-- The main scanning loop of ParseNamedParams: returns the rewritten
output and the named-parameter occurrence names in source order (the
source's 1-based position counter is the occurrence index; its
name/position bookkeeping is recovered from this list below).  In the
line-comment branch the leading `-` is emitted directly (the source
emits `query[start:i]` whose first byte is that `-`). -/
def parseLoop : List Char → List Char × List (List Char)
  | [] => ([], [])
  | c :: t =>
    if c = '\'' then
      let p := scanQuote '\'' t
      let q := parseLoop p.2.val
      (c :: (p.1 ++ q.1), q.2)
    else if c = '"' then
      let p := scanQuote '"' t
      let q := parseLoop p.2.val
      (c :: (p.1 ++ q.1), q.2)
    else if c = '-' ∧ t.head? = some '-' then
      let q := parseLoop (t.dropWhile (fun x => decide (¬ x = '\n')))
      (c :: (t.takeWhile (fun x => decide (¬ x = '\n')) ++ q.1), q.2)
    else if c = '/' ∧ t.head? = some '*' then
      let p := scanBlock t.tail
      let q := parseLoop p.2.val
      (c :: '*' :: (p.1 ++ q.1), q.2)
    else if (c = ':' ∨ c = '@' ∨ c = '$') ∧ t.head?.elim false isIdentStart then
      let q := parseLoop (t.dropWhile isIdentChar)
      ('?' :: q.1, t.takeWhile isIdentChar :: q.2)
    else
      let q := parseLoop t
      (c :: q.1, q.2)
termination_by l => l.length
decreasing_by
  all_goals rename List Char => t
  all_goals simp only [List.length_cons]
  · have := (scanQuote '\'' t).2.property
    omega
  · have := (scanQuote '"' t).2.property
    omega
  · have := (List.dropWhile_sublist (fun x => decide (¬ x = '\n')) (l := t)).length_le
    omega
  · have h1 := (scanBlock t.tail).2.property
    have h2 : t.tail.length ≤ t.length := by
      cases t <;> simp
    omega
  · have := (List.dropWhile_sublist isIdentChar (l := t)).length_le
    omega
  · omega

/-- The quick pre-scan of ParseNamedParams: a sigil anywhere followed
by an identifier-start character, without any region skipping. -/
def hasNamedQuick : List Char → Bool
  | [] => false
  | c :: t =>
    ((decide (c = ':') || decide (c = '@') || decide (c = '$'))
      && t.head?.elim false isIdentStart)
    || hasNamedQuick t

/-- The Names slice of ParseNamedParams: first occurrence order,
duplicates dropped. -/
def namesOrder (occs : List (List Char)) : List (List Char) :=
  occs.foldl (fun acc n => if n ∈ acc then acc else acc ++ [n]) []

/-- The Positions map of ParseNamedParams, recovered from the ordered
occurrence list: the source increments a position counter once per
occurrence and appends it to `Positions[name]`, so `Positions[name]`
is the list of 1-based occurrence indices carrying `name`. -/
def positionsFrom (i : Nat) : List (List Char) → List Char → List Nat
  | [], _ => []
  | n :: rest, name =>
    if n = name then i :: positionsFrom (i + 1) rest name
    else positionsFrom (i + 1) rest name

def positionsOf (occs : List (List Char)) (name : List Char) : List Nat :=
  positionsFrom 1 occs name

/-- The NamedParams result of ParseNamedParams: rewritten query, names
in first-appearance order, and the name-to-positions map. -/
structure NamedParams where
  query : List Char
  names : List (List Char)
  positions : List Char → List Nat

/-- ParseNamedParams from src/unnamed/part_003: nil on an empty query,
nil when the quick scan finds no candidate, nil when the full scan
records no occurrence; otherwise the rewritten query with `?` markers
and the recorded names and positions. -/
def ParseNamedParams (query : List Char) : Option NamedParams :=
  if query = [] then none
  else if ¬ (hasNamedQuick query = true) then none
  else
    let r := parseLoop query
    if r.2 = [] then none
    else some ⟨r.1, namesOrder r.2, fun name => positionsOf r.2 name⟩

/-! Spec-side segmentation for C2, from the spec's words: a query is a
sequence of chunks — plain characters, single-quoted literals with
doubled-quote escapes, double-quoted identifiers, `--` comments running
to the end of the line, `/* */` block comments, and named-parameter
tokens `(:|@|$)` followed by an identifier.  Rewriting emits `?` for
each parameter chunk and every other chunk verbatim. -/

inductive SqlChunk
  | plain (c : Char)
  | squoted (body : List Char)
  | dquoted (body : List Char)
  | lineComment (text : List Char)
  | blockComment (text : List Char)
  | param (sigil : Char) (name : List Char)

/-- The original text of a chunk. -/
def chunkOrig : SqlChunk → List Char
  | SqlChunk.plain c => [c]
  | SqlChunk.squoted b => '\'' :: b
  | SqlChunk.dquoted b => '"' :: b
  | SqlChunk.lineComment s => s
  | SqlChunk.blockComment s => s
  | SqlChunk.param sg n => sg :: n

/-- The rewritten text of a chunk: `?` for a parameter, the original
text for everything else. -/
def chunkNew : SqlChunk → List Char
  | SqlChunk.param _ _ => ['?']
  | k => chunkOrig k

/-- The parameter names a chunk contributes. -/
def chunkParams : SqlChunk → List (List Char)
  | SqlChunk.param _ n => [n]
  | _ => []

def renderOrig (ks : List SqlChunk) : List Char :=
  ks.foldr (fun k acc => chunkOrig k ++ acc) []

def renderNew (ks : List SqlChunk) : List Char :=
  ks.foldr (fun k acc => chunkNew k ++ acc) []

def chunkOccs (ks : List SqlChunk) : List (List Char) :=
  ks.foldr (fun k acc => chunkParams k ++ acc) []

/-- The spec-side segmentation of a query into chunks. -/
def specChunks : List Char → List SqlChunk
  | [] => []
  | c :: t =>
    if c = '\'' then
      let p := scanQuote '\'' t
      SqlChunk.squoted p.1 :: specChunks p.2.val
    else if c = '"' then
      let p := scanQuote '"' t
      SqlChunk.dquoted p.1 :: specChunks p.2.val
    else if c = '-' ∧ t.head? = some '-' then
      SqlChunk.lineComment (c :: t.takeWhile (fun x => decide (¬ x = '\n')))
        :: specChunks (t.dropWhile (fun x => decide (¬ x = '\n')))
    else if c = '/' ∧ t.head? = some '*' then
      let p := scanBlock t.tail
      SqlChunk.blockComment (c :: '*' :: p.1) :: specChunks p.2.val
    else if (c = ':' ∨ c = '@' ∨ c = '$') ∧ t.head?.elim false isIdentStart then
      SqlChunk.param c (t.takeWhile isIdentChar)
        :: specChunks (t.dropWhile isIdentChar)
    else
      SqlChunk.plain c :: specChunks t
termination_by l => l.length
decreasing_by
  all_goals rename List Char => t
  all_goals simp only [List.length_cons]
  · have := (scanQuote '\'' t).2.property
    omega
  · have := (scanQuote '"' t).2.property
    omega
  · have := (List.dropWhile_sublist (fun x => decide (¬ x = '\n')) (l := t)).length_le
    omega
  · have h1 := (scanBlock t.tail).2.property
    have h2 : t.tail.length ≤ t.length := by
      cases t <;> simp
    omega
  · have := (List.dropWhile_sublist isIdentChar (l := t)).length_le
    omega
  · omega

/-! ## Theorems -/

theorem statePrefix08_iff (st : List Char) :
    statePrefix08 st = true ↔ Begins08 st := by
  match st with
  | [] => simp [statePrefix08, Begins08]
  | [a] => simp [statePrefix08, Begins08]
  | a :: b :: t =>
    simp only [statePrefix08, Begins08, List.take, Bool.and_eq_true,
      decide_eq_true_eq, List.cons.injEq]
    constructor
    · rintro ⟨_, h1, h2, _⟩
      exact ⟨t, by simp [h1, h2]⟩
    · rintro ⟨u, h1, h2, _⟩
      exact ⟨by simp, h1, h2, trivial⟩

/-! Characterisation of the `isValidDecimalString` scanning loop. -/

theorem decimalScan_dot_iff (l : List Char) : ∀ hd : Bool,
    decimalScan l hd true = true ↔ (AllDigits l ∧ (hd = true ∨ l ≠ [])) := by
  induction l with
  | nil =>
    intro hd
    simp [decimalScan, AllDigits]
  | cons c rest ih =>
    intro hd
    by_cases hc : isDigitChar c = true
    · rw [show decimalScan (c :: rest) hd true = decimalScan rest true true from by
        simp [decimalScan, hc]]
      rw [ih true]
      simp only [AllDigits, List.forall_mem_cons]
      constructor
      · rintro ⟨h1, _⟩
        exact ⟨⟨hc, h1⟩, Or.inr (by simp)⟩
      · rintro ⟨⟨_, h1⟩, _⟩
        exact ⟨h1, by simp⟩
    · have hfalse : decimalScan (c :: rest) hd true = false := by
        simp [decimalScan, hc]
      simp only [hfalse, AllDigits, List.forall_mem_cons]
      constructor
      · intro h; cases h
      · rintro ⟨⟨h1, _⟩, _⟩; exact absurd h1 hc

theorem decimalScan_nodot_iff (l : List Char) : ∀ hd : Bool,
    decimalScan l hd false = true ↔
      ((AllDigits l ∧ (hd = true ∨ l ≠ [])) ∨
       ∃ a b, l = a ++ '.' :: b ∧ AllDigits a ∧ AllDigits b ∧
         (hd = true ∨ a ≠ [] ∨ b ≠ [])) := by
  induction l with
  | nil =>
    intro hd
    constructor
    · intro h
      exact Or.inl ⟨by simp [AllDigits], Or.inl (by simpa [decimalScan] using h)⟩
    · rintro (⟨_, h | h⟩ | ⟨a, b, habs, _⟩)
      · simp [decimalScan, h]
      · simp at h
      · exact absurd habs (by simp)
  | cons c rest ih =>
    intro hd
    by_cases hc : isDigitChar c = true
    · rw [show decimalScan (c :: rest) hd false = decimalScan rest true false from by
        simp [decimalScan, hc]]
      rw [ih true]
      constructor
      · rintro (⟨hAll, _⟩ | ⟨a, b, heq, ha, hb, _⟩)
        · refine Or.inl ⟨?_, Or.inr (by simp)⟩
          simp only [AllDigits, List.forall_mem_cons]
          exact ⟨hc, hAll⟩
        · refine Or.inr ⟨c :: a, b, by simp [heq], ?_, hb, Or.inr (Or.inl (by simp))⟩
          simp only [AllDigits, List.forall_mem_cons]
          exact ⟨hc, ha⟩
      · rintro (⟨hAll, _⟩ | ⟨a, b, heq, ha, hb, _⟩)
        · simp only [AllDigits, List.forall_mem_cons] at hAll
          exact Or.inl ⟨hAll.2, Or.inl rfl⟩
        · cases a with
          | nil =>
            simp only [List.nil_append, List.cons.injEq] at heq
            rw [heq.1] at hc
            exact absurd hc (by decide)
          | cons a0 a1 =>
            simp only [List.cons_append, List.cons.injEq] at heq
            simp only [AllDigits, List.forall_mem_cons] at ha
            exact Or.inr ⟨a1, b, heq.2, ha.2, hb, Or.inl rfl⟩
    · by_cases hdot : c = '.'
      · subst hdot
        rw [show decimalScan ('.' :: rest) hd false = decimalScan rest hd true from by
          simp [decimalScan, hc]]
        rw [decimalScan_dot_iff rest hd]
        constructor
        · rintro ⟨hAll, hne⟩
          refine Or.inr ⟨[], rest, rfl, by simp [AllDigits], hAll, ?_⟩
          rcases hne with h | h
          · exact Or.inl h
          · exact Or.inr (Or.inr h)
        · rintro (⟨hAll, _⟩ | ⟨a, b, heq, ha, hb, hne⟩)
          · simp only [AllDigits, List.forall_mem_cons] at hAll
            exact absurd hAll.1 hc
          · cases a with
            | nil =>
              simp only [List.nil_append, List.cons.injEq] at heq
              refine ⟨heq.2 ▸ hb, ?_⟩
              rcases hne with h | h | h
              · exact Or.inl h
              · exact absurd rfl h
              · exact Or.inr (heq.2 ▸ h)
            | cons a0 a1 =>
              simp only [List.cons_append, List.cons.injEq] at heq
              simp only [AllDigits, List.forall_mem_cons] at ha
              rw [← heq.1] at ha
              exact absurd ha.1 hc
      · have hfalse : decimalScan (c :: rest) hd false = false := by
          simp [decimalScan, hc, hdot]
        simp only [hfalse]
        constructor
        · intro h; cases h
        · rintro (⟨hAll, _⟩ | ⟨a, b, heq, ha, hb, _⟩)
          · simp only [AllDigits, List.forall_mem_cons] at hAll
            exact absurd hAll.1 hc
          · cases a with
            | nil =>
              simp only [List.nil_append, List.cons.injEq] at heq
              exact absurd heq.1 hdot
            | cons a0 a1 =>
              simp only [List.cons_append, List.cons.injEq] at heq
              simp only [AllDigits, List.forall_mem_cons] at ha
              rw [← heq.1] at ha
              exact absurd ha.1 hc

theorem decimalScan_body_iff (l : List Char) :
    decimalScan l false false = true ↔ DecimalBodyRegex l := by
  rw [decimalScan_nodot_iff l false]
  constructor
  · rintro (⟨h1, h2 | h2⟩ | ⟨a, b, heq, ha, hb, h | h⟩)
    · cases h2
    · exact Or.inl ⟨h2, h1⟩
    · cases h
    · exact Or.inr ⟨a, b, heq, ha, hb, h⟩
  · rintro (⟨h1, h2⟩ | ⟨a, b, heq, ha, hb, h⟩)
    · exact Or.inl ⟨h2, Or.inr h1⟩
    · exact Or.inr ⟨a, b, heq, ha, hb, Or.inr h⟩

theorem DecimalBodyRegex_not_nil : ¬ DecimalBodyRegex [] := by
  rintro (⟨h, _⟩ | ⟨a, b, habs, _⟩)
  · exact h rfl
  · exact absurd habs (by simp)

/-- A sign character heads no regex body: a body starting with `-` or
`+` is impossible since both alternations start with a digit or dot. -/
theorem DecimalBodyRegex_not_sign (c : Char) (rest : List Char)
    (hc : c = '-' ∨ c = '+') : ¬ DecimalBodyRegex (c :: rest) := by
  have hcd : isDigitChar c = false := by rcases hc with rfl | rfl <;> decide
  have hcdot : c ≠ '.' := by rcases hc with rfl | rfl <;> decide
  rintro (⟨_, hAll⟩ | ⟨a, b, heq, ha, _, _⟩)
  · have := hAll c (by simp)
    rw [hcd] at this
    cases this
  · cases a with
    | nil =>
      simp only [List.nil_append, List.cons.injEq] at heq
      exact hcdot heq.1
    | cons a0 a1 =>
      simp only [List.cons_append, List.cons.injEq] at heq
      have := ha a0 (by simp)
      rw [← heq.1, hcd] at this
      cases this

/-- The retry decision as a function of the extracted SQLState. -/
theorem retry_body_iff (st : List Char) :
    (if st = [] then false
     else if st = ['0', '8', '0', '0', '1'] ∨ st = ['0', '8', 'S', '0', '1']
         ∨ st = ['4', '0', '0', '0', '1'] ∨ st = ['H', 'Y', 'T', '0', '0']
         ∨ st = ['H', 'Y', 'T', '0', '1'] ∨ st = ['4', '0', '0', '0', '3'] then
       true
     else statePrefix08 st) = true ↔ RetryableState st := by
  by_cases h0 : st = []
  · subst h0
    simp only [if_pos rfl]
    simp [RetryableState, Begins08]
  · rw [if_neg h0]
    by_cases hsw : st = ['0', '8', '0', '0', '1'] ∨ st = ['0', '8', 'S', '0', '1']
        ∨ st = ['4', '0', '0', '0', '1'] ∨ st = ['H', 'Y', 'T', '0', '0']
        ∨ st = ['H', 'Y', 'T', '0', '1'] ∨ st = ['4', '0', '0', '0', '3']
    · rw [if_pos hsw]
      constructor
      · intro _
        rcases hsw with rfl | rfl | rfl | rfl | rfl | rfl
        · exact Or.inl ⟨['0', '0', '1'], rfl⟩
        · exact Or.inl ⟨['S', '0', '1'], rfl⟩
        · exact Or.inr (Or.inl rfl)
        · exact Or.inr (Or.inr (Or.inr (Or.inl rfl)))
        · exact Or.inr (Or.inr (Or.inr (Or.inr rfl)))
        · exact Or.inr (Or.inr (Or.inl rfl))
      · intro _; rfl
    · rw [if_neg hsw, statePrefix08_iff]
      constructor
      · exact Or.inl
      · rintro (h | h | h | h | h)
        · exact h
        · exact absurd (Or.inr (Or.inr (Or.inl h))) hsw
        · exact absurd (Or.inr (Or.inr (Or.inr (Or.inr (Or.inr h))))) hsw
        · exact absurd (Or.inr (Or.inr (Or.inr (Or.inl h)))) hsw
        · exact absurd (Or.inr (Or.inr (Or.inr (Or.inr (Or.inl h))))) hsw

/-- Counterexample to claim C6 as stated: a diagnostics-produced
two-record Errors chain whose leading record carries SQLState `01004`
is not classified as data truncation, although the claim, which covers
multi-record chains classified by their leading record, requires it. -/
theorem IsDataTruncation_multi_counterexample :
    IsDataTruncation (some (GoError.multi
      [⟨['0', '1', '0', '0', '4'], 0, []⟩, ⟨['H', 'Y', '0', '0', '0'], 0, []⟩]))
      = false
    ∧ leadSqlState (GoError.multi
      [⟨['0', '1', '0', '0', '4'], 0, []⟩, ⟨['H', 'Y', '0', '0', '0'], 0, []⟩])
      = ['0', '1', '0', '0', '4'] :=
  ⟨rfl, rfl⟩

/-- Claim C6 (amended): for every error produced by the diagnostics
layer — a single Error, or a multi-record Errors chain classified by
its leading record — IsConnectionError is true exactly when the
SQLState begins with "08", and IsRetryable is true exactly when the
SQLState begins with "08" or is one of 40001, 40003, HYT00, HYT01.
IsDataTruncation, however, is true exactly when the error is a single
Error whose SQLState equals "01004": a multi-record chain is never
classified as data truncation, whatever its leading record. -/
theorem sqlstate_classification (e : GoError)
    (hscope : (∃ r, e = GoError.single r) ∨ ∃ r rs, e = GoError.multi (r :: rs)) :
    (IsConnectionError (some e) = true ↔ Begins08 (leadSqlState e))
    ∧ (IsDataTruncation (some e) = true ↔
        ∃ r, e = GoError.single r ∧ r.sqlState = ['0', '1', '0', '0', '4'])
    ∧ (IsRetryable (some e) = true ↔ RetryableState (leadSqlState e)) := by
  refine ⟨?_, ?_, ?_⟩
  · rcases hscope with ⟨r, rfl⟩ | ⟨r, rs, rfl⟩
    · simpa [IsConnectionError, leadSqlState] using statePrefix08_iff r.sqlState
    · simpa [IsConnectionError, leadSqlState] using statePrefix08_iff r.sqlState
  · rcases hscope with ⟨r, rfl⟩ | ⟨r, rs, rfl⟩
    · simp [IsDataTruncation]
    · simp [IsDataTruncation]
  · have he : IsRetryable (some e)
        = (if leadSqlState e = [] then false
           else if leadSqlState e = ['0', '8', '0', '0', '1']
               ∨ leadSqlState e = ['0', '8', 'S', '0', '1']
               ∨ leadSqlState e = ['4', '0', '0', '0', '1']
               ∨ leadSqlState e = ['H', 'Y', 'T', '0', '0']
               ∨ leadSqlState e = ['H', 'Y', 'T', '0', '1']
               ∨ leadSqlState e = ['4', '0', '0', '0', '3'] then true
           else statePrefix08 (leadSqlState e)) := rfl
    rw [he]
    exact retry_body_iff (leadSqlState e)

/-- Witness for the amended C6 at a concrete single Error with SQLState
`08001`. -/
theorem sqlstate_classification_witness :
    IsConnectionError (some (GoError.single ⟨['0', '8', '0', '0', '1'], 0, []⟩))
      = true :=
  ((sqlstate_classification (GoError.single ⟨['0', '8', '0', '0', '1'], 0, []⟩)
      (Or.inl ⟨_, rfl⟩)).1).mpr ⟨['0', '0', '1'], rfl⟩

/-- Claim C5: `isValidDecimalString s` returns `true` iff `s` matches
the regular language `[+-]?(\d+|\d*\.\d+|\d+\.\d*)`: an optional
leading sign, at most one dot, at least one ASCII digit, and no other
characters.  In particular it rejects the empty string, a bare sign, a
bare dot, strings with two dots, and strings with any other character. -/
theorem isValidDecimalString_iff_regex (s : List Char) :
    isValidDecimalString s = true ↔ DecimalRegex s := by
  match s with
  | [] =>
    constructor
    · intro h
      simp [isValidDecimalString] at h
    · rintro ⟨sg, body, hsg, hbody, heq⟩
      have hb : body = [] := by
        rcases hsg with rfl | rfl | rfl <;> simp_all
      rw [hb] at hbody
      exact absurd hbody DecimalBodyRegex_not_nil
  | c0 :: rest =>
    by_cases hsign : c0 = '-' ∨ c0 = '+'
    · match rest with
      | [] =>
        have h1 : isValidDecimalString [c0] = false := by
          simp [isValidDecimalString, hsign]
        rw [h1]
        constructor
        · intro h; cases h
        · rintro ⟨sg, body, hsg, hbody, heq⟩
          rcases hsg with rfl | rfl | rfl
          · simp only [List.nil_append] at heq
            rw [← heq] at hbody
            exact absurd hbody (DecimalBodyRegex_not_sign c0 [] hsign)
          · simp only [List.cons_append, List.nil_append,
              List.cons.injEq] at heq
            rw [← heq.2] at hbody
            exact absurd hbody DecimalBodyRegex_not_nil
          · simp only [List.cons_append, List.nil_append,
              List.cons.injEq] at heq
            rw [← heq.2] at hbody
            exact absurd hbody DecimalBodyRegex_not_nil
      | r :: rest2 =>
        have h1 : isValidDecimalString (c0 :: r :: rest2)
            = decimalScan (r :: rest2) false false := by
          simp [isValidDecimalString, hsign]
        rw [h1, decimalScan_body_iff]
        constructor
        · intro hbody
          rcases hsign with rfl | rfl
          · exact ⟨['-'], r :: rest2, Or.inr (Or.inr rfl), hbody, rfl⟩
          · exact ⟨['+'], r :: rest2, Or.inr (Or.inl rfl), hbody, rfl⟩
        · rintro ⟨sg, body, hsg, hbody, heq⟩
          rcases hsg with rfl | rfl | rfl
          · simp only [List.nil_append] at heq
            rw [← heq] at hbody
            exact absurd hbody (DecimalBodyRegex_not_sign c0 _ hsign)
          · simp only [List.cons_append, List.nil_append,
              List.cons.injEq] at heq
            rw [heq.2]
            exact hbody
          · simp only [List.cons_append, List.nil_append,
              List.cons.injEq] at heq
            rw [heq.2]
            exact hbody
    · have h1 : isValidDecimalString (c0 :: rest)
          = decimalScan (c0 :: rest) false false := by
        simp [isValidDecimalString, hsign]
      rw [h1, decimalScan_body_iff]
      constructor
      · intro hbody
        exact ⟨[], c0 :: rest, Or.inl rfl, hbody, rfl⟩
      · rintro ⟨sg, body, hsg, hbody, heq⟩
        rcases hsg with rfl | rfl | rfl
        · simp only [List.nil_append] at heq
          rw [← heq] at hbody
          exact hbody
        · simp only [List.cons_append, List.nil_append,
            List.cons.injEq] at heq
          exact absurd (Or.inr heq.1) hsign
        · simp only [List.cons_append, List.nil_append,
            List.cons.injEq] at heq
          exact absurd (Or.inl heq.1) hsign

/-- Claim C3: for every nanosecond value `n < 10^9` and precision
`p ∈ {0, 3, 6, 9}`, `truncateFraction n p` equals
`(n / 10^(9-p)) * 10^(9-p)` in integer arithmetic (with `p = 0`
yielding `0`); consequently the written fraction is at most `n` and
differs from `n` by less than `10^(9-p)`: truncation, never rounding. -/
theorem truncateFraction_spec (n : Nat) (p : Int)
    (hn : n < 10 ^ 9) (hp : p = 0 ∨ p = 3 ∨ p = 6 ∨ p = 9) :
    truncateFraction n p = (n / 10 ^ (9 - p.toNat)) * 10 ^ (9 - p.toNat)
    ∧ truncateFraction n p ≤ n
    ∧ n - truncateFraction n p < 10 ^ (9 - p.toNat) := by
  have hn9 : n < 1000000000 := by norm_num at hn; exact hn
  rcases hp with h0 | h3 | h6 | h9
  · subst h0
    have e : (10 : Nat) ^ (9 - Int.toNat 0) = 1000000000 := by decide
    have h1 : truncateFraction n 0 = 0 := by simp [truncateFraction]
    rw [e, h1]
    omega
  · subst h3
    have e : (10 : Nat) ^ (9 - Int.toNat 3) = 1000000 := by decide
    have h1 : truncateFraction n 3 = n / 1000000 * 1000000 % 2 ^ 32 := by
      simp [truncateFraction]
    have hle := Nat.div_mul_le_self n 1000000
    have h2 : n / 1000000 * 1000000 % 2 ^ 32 = n / 1000000 * 1000000 :=
      Nat.mod_eq_of_lt (by omega)
    rw [e, h1, h2]
    omega
  · subst h6
    have e : (10 : Nat) ^ (9 - Int.toNat 6) = 1000 := by decide
    have h1 : truncateFraction n 6 = n / 1000 * 1000 % 2 ^ 32 := by
      simp [truncateFraction]
    have hle := Nat.div_mul_le_self n 1000
    have h2 : n / 1000 * 1000 % 2 ^ 32 = n / 1000 * 1000 :=
      Nat.mod_eq_of_lt (by omega)
    rw [e, h1, h2]
    omega
  · subst h9
    have e : (10 : Nat) ^ (9 - Int.toNat 9) = 1 := by decide
    have h1 : truncateFraction n 9 = n % 2 ^ 32 := by
      simp [truncateFraction]
    have h2 : n % 2 ^ 32 = n := Nat.mod_eq_of_lt (by omega)
    rw [e, h1, h2]
    omega

/-- Witness for C3 at `n = 987654321`, `p = 3`. -/
theorem truncateFraction_spec_witness :
    truncateFraction 987654321 3 = 987654321 / 10 ^ 6 * 10 ^ 6
    ∧ truncateFraction 987654321 3 ≤ 987654321
    ∧ 987654321 - truncateFraction 987654321 3 < 10 ^ 6 := by
  have h := truncateFraction_spec 987654321 3 (by norm_num) (by norm_num)
  simpa using h

/-- Claim C9 (implicit behaviour, confirmed): binding a Go `uint`
converts it with a plain signed cast to int64 and binds it as
`SQL_C_SBIGINT`/`SQL_BIGINT`, so every `uint` value above `2^63 - 1`
is bound as its two's-complement wrap, a negative number; only the
distinct type `uint64` is routed through the decimal-string path. -/
theorem uint_binding_wraps (v : Nat) (h64 : v < 2 ^ 64) (hbig : 2 ^ 63 - 1 < v) :
    convertToODBC (GoUnsigned.goUint v)
      = ⟨BindBuffer.sbigint ((v : Int) - 2 ^ 64), SQL_C_SBIGINT, SQL_BIGINT, 20, 0, 8⟩
    ∧ (v : Int) - 2 ^ 64 < 0
    ∧ convertToODBC (GoUnsigned.goUint64 v)
      = ⟨BindBuffer.chars (Nat.repr v).toList, SQL_C_CHAR, SQL_VARCHAR,
          (Nat.repr v).toList.length, 0, (Nat.repr v).toList.length⟩ := by
  have hnot : ¬ v < 2 ^ 63 := by omega
  have hcast : (v : Int) < 2 ^ 64 := by exact_mod_cast h64
  refine ⟨?_, by omega, rfl⟩
  have e : goIntCast64 v = (v : Int) - 2 ^ 64 := by
    unfold goIntCast64
    rw [if_neg hnot]
  simp [convertToODBC, e]

/-- Witness for C9 at `v = 2^63`. -/
theorem uint_binding_wraps_witness :
    convertToODBC (GoUnsigned.goUint 9223372036854775808)
      = ⟨BindBuffer.sbigint ((9223372036854775808 : Int) - 2 ^ 64),
          SQL_C_SBIGINT, SQL_BIGINT, 20, 0, 8⟩
    ∧ (9223372036854775808 : Int) - 2 ^ 64 < 0 :=
  ⟨(uint_binding_wraps 9223372036854775808 (by norm_num) (by norm_num)).1,
   (uint_binding_wraps 9223372036854775808 (by norm_num) (by norm_num)).2.1⟩

/-- Claim C8: closing a statement a second (or any later) time returns
nil and performs no second free: the first Close sets the closed flag,
frees a live handle exactly once, zeroes the handle and clears the
parameter buffers; a Close on a closed statement returns immediately
with no state change and no frees. -/
theorem stmtClose_idempotent (s : StmtState) (hopen : s.closed = false) :
    (stmtClose s).1 = none
    ∧ (stmtClose s).2.1.closed = true
    ∧ (stmtClose s).2.1.handle = 0
    ∧ (stmtClose s).2.1.paramBuffers = []
    ∧ (stmtClose s).2.1.paramLengths = []
    ∧ (stmtClose s).2.1.outputParams = []
    ∧ (s.handle ≠ 0 → (stmtClose s).2.2 = [FreeEvent.freeHandle s.handle])
    ∧ (s.handle = 0 → (stmtClose s).2.2 = [])
    ∧ stmtClose (stmtClose s).2.1 = (none, (stmtClose s).2.1, []) := by
  by_cases hh : s.handle = 0 <;>
    simp [stmtClose, hopen, hh]

/-- Witness for C8 at a live statement with handle 5 and one binding. -/
theorem stmtClose_idempotent_witness :
    stmtClose (stmtClose ⟨false, 5, [BindBuffer.sbigint 7], [8], [1]⟩).2.1
      = (none, (stmtClose ⟨false, 5, [BindBuffer.sbigint 7], [8], [1]⟩).2.1, [])
    ∧ (stmtClose ⟨false, 5, [BindBuffer.sbigint 7], [8], [1]⟩).2.2
      = [FreeEvent.freeHandle 5] :=
  ⟨(stmtClose_idempotent ⟨false, 5, [BindBuffer.sbigint 7], [8], [1]⟩ rfl).2.2.2.2.2.2.2.2,
   (stmtClose_idempotent ⟨false, 5, [BindBuffer.sbigint 7], [8], [1]⟩ rfl).2.2.2.2.2.2.1
     (by decide)⟩

/-- Claim C7: from a live transaction (`inTx = true`, as established by
begin-transaction), Commit and Rollback each issue end-transaction
first with the appropriate completion code, clear the `inTx` flag on
every path (in particular before and regardless of the restoration
attempts), issue the autocommit-ON restore on every path — including
the one where end-transaction itself failed — and still report an
end-transaction failure to the caller. -/
theorem tx_commit_rollback_pairing (c : ConnState) (resp : TxDriverResp)
    (hin : c.inTx = true) :
    ((txCommit c resp).2.2.head? = some (ConnEvent.endTran SQL_COMMIT))
    ∧ (txCommit c resp).2.1.inTx = false
    ∧ ConnEvent.setAutocommit SQL_AUTOCOMMIT_ON ∈ (txCommit c resp).2.2
    ∧ (resp.endTranOK = false → (txCommit c resp).1.isSome = true)
    ∧ ((txRollback c resp).2.2.head? = some (ConnEvent.endTran SQL_ROLLBACK))
    ∧ (txRollback c resp).2.1.inTx = false
    ∧ ConnEvent.setAutocommit SQL_AUTOCOMMIT_ON ∈ (txRollback c resp).2.2
    ∧ (resp.endTranOK = false → (txRollback c resp).1.isSome = true) := by
  obtain ⟨et, sa, sm⟩ := resp
  cases et <;> cases sa <;>
    simp [txCommit, txRollback, hin]

/-- Witness for C7: live transaction, EndTran fails, restores succeed:
the autocommit restore is still issued and the failure is reported. -/
theorem tx_commit_rollback_pairing_witness :
    ConnEvent.setAutocommit SQL_AUTOCOMMIT_ON
      ∈ (txCommit ⟨true⟩ ⟨false, true, true⟩).2.2
    ∧ (txCommit ⟨true⟩ ⟨false, true, true⟩).1.isSome = true :=
  ⟨(tx_commit_rollback_pairing ⟨true⟩ ⟨false, true, true⟩ rfl).2.2.1,
   (tx_commit_rollback_pairing ⟨true⟩ ⟨false, true, true⟩ rfl).2.2.2.1 rfl⟩

/-! Lemmas for C2. -/

/-- The quote scanner partitions its input. -/
theorem scanQuote_append (q : Char) (l : List Char) :
    (scanQuote q l).1 ++ (scanQuote q l).2.val = l := by
  induction l using scanQuote.induct q with
  | case1 =>
    rw [scanQuote.eq_def]
    simp
  | case2 t2 ih =>
    rw [scanQuote.eq_def]
    simp [ih]
  | case3 c2 t2 hc2 =>
    rw [scanQuote.eq_def]
    simp [hc2]
  | case4 =>
    rw [scanQuote.eq_def]
    simp
  | case5 c t hc ih =>
    rw [scanQuote.eq_def]
    simp [hc, ih]

/-- The block-comment scanner partitions its input. -/
theorem scanBlock_append (l : List Char) :
    (scanBlock l).1 ++ (scanBlock l).2.val = l := by
  induction l using scanBlock.induct with
  | case1 a b t h =>
    obtain ⟨rfl, rfl⟩ := h
    rw [scanBlock.eq_def]
    simp
  | case2 a b t h ih =>
    rw [scanBlock.eq_def]
    simp [h, ih]
  | case3 l h =>
    match l, h with
    | [], _ =>
      rw [scanBlock.eq_def]
      simp
    | [x], _ =>
      rw [scanBlock.eq_def]
      simp
    | a :: b :: t, h => exact absurd rfl (h a b t)

theorem renderOrig_cons (k : SqlChunk) (ks : List SqlChunk) :
    renderOrig (k :: ks) = chunkOrig k ++ renderOrig ks := rfl

theorem renderNew_cons (k : SqlChunk) (ks : List SqlChunk) :
    renderNew (k :: ks) = chunkNew k ++ renderNew ks := rfl

theorem chunkOccs_cons (k : SqlChunk) (ks : List SqlChunk) :
    chunkOccs (k :: ks) = chunkParams k ++ chunkOccs ks := rfl

/-- The quick scan is monotone under prepending text. -/
theorem hasNamedQuick_append (pre r : List Char) (h : hasNamedQuick r = true) :
    hasNamedQuick (pre ++ r) = true := by
  induction pre with
  | nil => simpa using h
  | cons a pre ih =>
    rw [List.cons_append, hasNamedQuick]
    rw [ih]
    simp

/-- Core correspondence for C2: the source loop computes the rewritten
text and the ordered occurrences of the spec-side segmentation; the
segmentation reproduces the input; and the quick scan fires whenever
the segmentation contains a parameter. -/
theorem parse_spec_core (l : List Char) :
    parseLoop l = (renderNew (specChunks l), chunkOccs (specChunks l))
    ∧ renderOrig (specChunks l) = l
    ∧ (chunkOccs (specChunks l) ≠ [] → hasNamedQuick l = true) := by
  induction l using parseLoop.induct with
  | case1 =>
    refine ⟨?_, ?_, ?_⟩ <;>
      simp [parseLoop, specChunks, renderOrig, renderNew, chunkOccs]
  | case2 tail p ih =>
    rw [show p = scanQuote '\'' tail from rfl] at ih
    obtain ⟨ih1, ih2, ih3⟩ := ih
    have happ := scanQuote_append '\'' tail
    rw [parseLoop.eq_def, specChunks.eq_def]
    dsimp only
    rw [if_pos rfl, if_pos rfl]
    refine ⟨?_, ?_, ?_⟩
    · rw [renderNew_cons, chunkOccs_cons, ih1]
      simp [chunkNew, chunkOrig, chunkParams]
    · rw [renderOrig_cons, ih2]
      simp only [chunkOrig, List.cons_append]
      rw [happ]
    · rw [chunkOccs_cons]
      simp only [chunkParams, List.nil_append]
      intro hne
      have hq := ih3 hne
      have h := hasNamedQuick_append ('\'' :: (scanQuote '\'' tail).1)
        (scanQuote '\'' tail).2.val hq
      rw [List.cons_append, happ] at h
      exact h
  | case3 tail p hne2 ih =>
    rw [show p = scanQuote '"' tail from rfl] at ih
    obtain ⟨ih1, ih2, ih3⟩ := ih
    have happ := scanQuote_append '"' tail
    rw [parseLoop.eq_def, specChunks.eq_def]
    dsimp only
    rw [if_neg hne2, if_neg hne2, if_pos rfl, if_pos rfl]
    refine ⟨?_, ?_, ?_⟩
    · rw [renderNew_cons, chunkOccs_cons, ih1]
      simp [chunkNew, chunkOrig, chunkParams]
    · rw [renderOrig_cons, ih2]
      simp only [chunkOrig, List.cons_append]
      rw [happ]
    · rw [chunkOccs_cons]
      simp only [chunkParams, List.nil_append]
      intro hne
      have hq := ih3 hne
      have h := hasNamedQuick_append ('"' :: (scanQuote '"' tail).1)
        (scanQuote '"' tail).2.val hq
      rw [List.cons_append, happ] at h
      exact h
  | case4 head tail h1 h2 hcond ih =>
    obtain ⟨ih1, ih2, ih3⟩ := ih
    have happ := List.takeWhile_append_dropWhile
      (p := fun x => decide (¬ x = '\n')) (l := tail)
    rw [parseLoop.eq_def, specChunks.eq_def]
    dsimp only
    rw [if_neg h1, if_neg h1, if_neg h2, if_neg h2, if_pos hcond, if_pos hcond]
    refine ⟨?_, ?_, ?_⟩
    · rw [renderNew_cons, chunkOccs_cons, ih1]
      simp [chunkNew, chunkOrig, chunkParams]
    · rw [renderOrig_cons, ih2]
      simp only [chunkOrig, List.cons_append]
      rw [happ]
    · rw [chunkOccs_cons]
      simp only [chunkParams, List.nil_append]
      intro hne
      have hq := ih3 hne
      have h := hasNamedQuick_append
        (head :: tail.takeWhile (fun x => decide (¬ x = '\n')))
        (tail.dropWhile (fun x => decide (¬ x = '\n'))) hq
      rw [List.cons_append, happ] at h
      exact h
  | case5 head tail h1 h2 h3 hcond p ih =>
    rw [show p = scanBlock tail.tail from rfl] at ih
    obtain ⟨ih1, ih2, ih3⟩ := ih
    have happ := scanBlock_append tail.tail
    have hstar := hcond.2
    have htail : tail = '*' :: tail.tail := by
      cases tail with
      | nil => simp at hstar
      | cons b t2 =>
        simp only [List.head?_cons, Option.some.injEq] at hstar
        rw [hstar]
        rfl
    rw [parseLoop.eq_def, specChunks.eq_def]
    dsimp only
    rw [if_neg h1, if_neg h1, if_neg h2, if_neg h2, if_neg h3, if_neg h3,
      if_pos hcond, if_pos hcond]
    refine ⟨?_, ?_, ?_⟩
    · rw [renderNew_cons, chunkOccs_cons, ih1]
      simp [chunkNew, chunkOrig, chunkParams]
    · rw [renderOrig_cons, ih2]
      simp only [chunkOrig, List.cons_append]
      rw [happ, ← htail, hcond.1]
    · rw [chunkOccs_cons]
      simp only [chunkParams, List.nil_append]
      intro hne
      have hq := ih3 hne
      have h := hasNamedQuick_append (head :: '*' :: (scanBlock tail.tail).1)
        (scanBlock tail.tail).2.val hq
      rw [List.cons_append, List.cons_append, happ, ← htail] at h
      exact h
  | case6 head tail h1 h2 h3 h4 hcond ih =>
    obtain ⟨ih1, ih2, ih3⟩ := ih
    have happ := List.takeWhile_append_dropWhile (p := isIdentChar) (l := tail)
    rw [parseLoop.eq_def, specChunks.eq_def]
    dsimp only
    rw [if_neg h1, if_neg h1, if_neg h2, if_neg h2, if_neg h3, if_neg h3,
      if_neg h4, if_neg h4, if_pos hcond, if_pos hcond]
    refine ⟨?_, ?_, ?_⟩
    · rw [renderNew_cons, chunkOccs_cons, ih1]
      simp [chunkNew, chunkOrig, chunkParams]
    · rw [renderOrig_cons, ih2]
      simp only [chunkOrig, List.cons_append]
      rw [happ]
    · intro _
      obtain ⟨hsig, hident⟩ := hcond
      rw [hasNamedQuick]
      have hs : (decide (head = ':') || decide (head = '@')
          || decide (head = '$')) = true := by
        rcases hsig with rfl | rfl | rfl <;> simp
      rw [hs, hident]
      simp
  | case7 head tail h1 h2 h3 h4 h5 ih =>
    obtain ⟨ih1, ih2, ih3⟩ := ih
    rw [parseLoop.eq_def, specChunks.eq_def]
    dsimp only
    rw [if_neg h1, if_neg h1, if_neg h2, if_neg h2, if_neg h3, if_neg h3,
      if_neg h4, if_neg h4, if_neg h5, if_neg h5]
    refine ⟨?_, ?_, ?_⟩
    · rw [renderNew_cons, chunkOccs_cons, ih1]
      simp [chunkNew, chunkOrig, chunkParams]
    · rw [renderOrig_cons, ih2]
      simp [chunkOrig]
    · rw [chunkOccs_cons]
      simp only [chunkParams, List.nil_append]
      intro hne
      have hq := ih3 hne
      have h := hasNamedQuick_append [head] tail hq
      simpa using h


/-- `Positions[name]` records one entry per occurrence of `name`. -/
theorem positionsFrom_length (name : List Char) :
    ∀ (occs : List (List Char)) (i : Nat),
      (positionsFrom i occs name).length = occs.count name := by
  intro occs
  induction occs with
  | nil =>
    intro i
    simp [positionsFrom]
  | cons n rest ih =>
    intro i
    by_cases hn : n = name
    · subst hn
      simp [positionsFrom, ih, List.count_cons]
    · simp [positionsFrom, hn, ih, List.count_cons, beq_iff_eq]

/-- Claim C2: relative to the spec-side segmentation of the query into
plain text, quoted literals, quoted identifiers, comments, and
named-parameter tokens (`specChunks`, which reproduces the query text
exactly), ParseNamedParams returns nil precisely when no named
parameter occurs outside the skipped regions; otherwise the rewritten
query is the segmentation rendered with one `?` per parameter
occurrence and all other text verbatim, Names lists the names in first
appearance order, and Positions maps each name to its 1-based
occurrence positions — `k` of them when the name occurs `k` times. -/
theorem named_params_compilation (q : List Char) :
    renderOrig (specChunks q) = q
    ∧ (ParseNamedParams q = none ↔ chunkOccs (specChunks q) = [])
    ∧ (∀ r, ParseNamedParams q = some r →
        r.query = renderNew (specChunks q)
        ∧ r.names = namesOrder (chunkOccs (specChunks q))
        ∧ (∀ name, r.positions name = positionsOf (chunkOccs (specChunks q)) name)
        ∧ ∀ name, (r.positions name).length
            = (chunkOccs (specChunks q)).count name) := by
  obtain ⟨h1, h2, h3⟩ := parse_spec_core q
  have hp1 : (parseLoop q).1 = renderNew (specChunks q) := by rw [h1]
  have hp2 : (parseLoop q).2 = chunkOccs (specChunks q) := by rw [h1]
  refine ⟨h2, ?_, ?_⟩
  · constructor
    · intro hn
      by_contra hocc
      have hq : hasNamedQuick q = true := h3 hocc
      have hqne : q ≠ [] := by
        intro he
        subst he
        exact hocc (by simp [specChunks, chunkOccs])
      unfold ParseNamedParams at hn
      rw [if_neg hqne, if_neg (not_not_intro hq)] at hn
      dsimp only at hn
      rw [hp2, if_neg hocc] at hn
      cases hn
    · intro hocc
      unfold ParseNamedParams
      by_cases hqe : q = []
      · rw [if_pos hqe]
      · rw [if_neg hqe]
        by_cases hquick : hasNamedQuick q = true
        · rw [if_neg (not_not_intro hquick)]
          dsimp only
          rw [hp2, if_pos hocc]
        · rw [if_pos hquick]
  · intro r hr
    unfold ParseNamedParams at hr
    by_cases hqe : q = []
    · rw [if_pos hqe] at hr
      cases hr
    · rw [if_neg hqe] at hr
      by_cases hquick : hasNamedQuick q = true
      · rw [if_neg (not_not_intro hquick)] at hr
        dsimp only at hr
        by_cases hocc : (parseLoop q).2 = []
        · rw [if_pos hocc] at hr
          cases hr
        · rw [if_neg hocc] at hr
          injection hr with hr
          subst hr
          refine ⟨hp1, by rw [hp2], fun name => by rw [hp2], fun name => ?_⟩
          show (positionsOf (parseLoop q).2 name).length
            = (chunkOccs (specChunks q)).count name
          rw [hp2]
          exact positionsFrom_length name _ 1
      · rw [if_pos hquick] at hr
        cases hr

/-- Witness for C2 at the concrete query `:a`. -/
theorem named_params_compilation_witness :
    renderOrig (specChunks (':' :: 'a' :: [])) = ':' :: 'a' :: []
    ∧ (ParseNamedParams (':' :: 'a' :: []) = none
        ↔ chunkOccs (specChunks (':' :: 'a' :: [])) = []) :=
  ⟨(named_params_compilation (':' :: 'a' :: [])).1,
   (named_params_compilation (':' :: 'a' :: [])).2.1⟩

theorem natCast_ne_nullData (n : Nat) : ¬((n : Int) = SQL_NULL_DATA) := by
  simp only [SQL_NULL_DATA]
  omega

/-- The getString truncation loop assembles exactly the driver's
remaining data when entered with `remaining` equal to its length. -/
theorem getStringLoop_complete (bufSize : Nat) (hbuf : 2 ≤ bufSize) :
    ∀ n (D : List Nat), D.length = n → ∀ acc,
      getStringLoop bufSize hbuf n (some D) acc = acc ++ D := by
  intro n
  induction n using Nat.strong_induction_on with
  | _ n ih =>
    intro D hD acc
    by_cases h0 : n = 0
    · subst h0
      have hDnil : D = [] := List.length_eq_zero.mp hD
      subst hDnil
      rw [getStringLoop, if_pos rfl]
      simp
    · rw [getStringLoop, if_neg h0]
      dsimp only
      by_cases hbig : min (n + 1) bufSize - 1 < D.length
      · rw [show getDataChar (some D) (min (n + 1) bufSize)
            = ⟨SQL_SUCCESS_WITH_INFO, D.take (min (n + 1) bufSize - 1),
               (D.length : Int), some (D.drop (min (n + 1) bufSize - 1))⟩ from by
          simp only [getDataChar]
          rw [if_pos hbig]]
        rw [if_neg (fun hcon => hcon.2 rfl)]
        rw [if_neg (by
          rintro (h | h)
          · exact (by decide : ¬(SQL_SUCCESS_WITH_INFO = SQL_NO_DATA)) h
          · exact natCast_ne_nullData D.length h)]
        have hcopy : min ((D.length : Int)).toNat (min (n + 1) bufSize - 1)
            = min (n + 1) bufSize - 1 := by
          rw [Int.toNat_natCast]
          omega
        rw [hcopy, List.take_take, Nat.min_self]
        have hlt : n - (min (n + 1) bufSize - 1) < n := by omega
        rw [ih (n - (min (n + 1) bufSize - 1)) hlt
            (D.drop (min (n + 1) bufSize - 1))
            (by rw [List.length_drop]; omega)
            (acc ++ D.take (min (n + 1) bufSize - 1))]
        rw [List.append_assoc, List.take_append_drop]
      · rw [show getDataChar (some D) (min (n + 1) bufSize)
            = ⟨SQL_SUCCESS, D, (D.length : Int), none⟩ from by
          simp only [getDataChar]
          rw [if_neg hbig]]
        rw [if_neg (fun hcon => hcon.1 (by decide : IsSuccess SQL_SUCCESS = true))]
        rw [if_neg (by
          rintro (h | h)
          · exact (by decide : ¬(SQL_SUCCESS = SQL_NO_DATA)) h
          · exact natCast_ne_nullData D.length h)]
        have hcopy : min ((D.length : Int)).toNat (min (n + 1) bufSize - 1) = n := by
          rw [Int.toNat_natCast]
          omega
        rw [hcopy]
        have htk : D.take n = D := by
          rw [← hD]
          exact List.take_length D
        rw [htk]
        have hz : n - n = 0 := by omega
        rw [hz, getStringLoop, if_pos rfl]

/-- The getBytes truncation loop assembles exactly the driver's
remaining data when entered with `remaining` equal to its length. -/
theorem getBytesLoop_complete (bufSize : Nat) (hbuf : 1 ≤ bufSize) :
    ∀ n (D : List Nat), D.length = n → ∀ acc,
      getBytesLoop bufSize hbuf n (some D) acc = acc ++ D := by
  intro n
  induction n using Nat.strong_induction_on with
  | _ n ih =>
    intro D hD acc
    by_cases h0 : n = 0
    · subst h0
      have hDnil : D = [] := List.length_eq_zero.mp hD
      subst hDnil
      rw [getBytesLoop, if_pos rfl]
      simp
    · rw [getBytesLoop, if_neg h0]
      dsimp only
      by_cases hbig : min n bufSize < D.length
      · rw [show getDataBin (some D) (min n bufSize)
            = ⟨SQL_SUCCESS_WITH_INFO, D.take (min n bufSize),
               (D.length : Int), some (D.drop (min n bufSize))⟩ from by
          simp only [getDataBin]
          rw [if_pos hbig]]
        rw [if_neg (fun hcon => hcon.2 rfl)]
        rw [if_neg (by
          rintro (h | h)
          · exact (by decide : ¬(SQL_SUCCESS_WITH_INFO = SQL_NO_DATA)) h
          · exact natCast_ne_nullData D.length h)]
        have hcopy : min ((D.length : Int)).toNat (min n bufSize)
            = min n bufSize := by
          rw [Int.toNat_natCast]
          omega
        rw [hcopy, List.take_take, Nat.min_self]
        have hlt : n - min n bufSize < n := by omega
        rw [ih (n - min n bufSize) hlt (D.drop (min n bufSize))
            (by rw [List.length_drop]; omega)
            (acc ++ D.take (min n bufSize))]
        rw [List.append_assoc, List.take_append_drop]
      · rw [show getDataBin (some D) (min n bufSize)
            = ⟨SQL_SUCCESS, D, (D.length : Int), none⟩ from by
          simp only [getDataBin]
          rw [if_neg hbig]]
        rw [if_neg (fun hcon => hcon.1 (by decide : IsSuccess SQL_SUCCESS = true))]
        rw [if_neg (by
          rintro (h | h)
          · exact (by decide : ¬(SQL_SUCCESS = SQL_NO_DATA)) h
          · exact natCast_ne_nullData D.length h)]
        have hcopy : min ((D.length : Int)).toNat (min n bufSize) = n := by
          rw [Int.toNat_natCast]
          omega
        rw [hcopy]
        have htk : D.take n = D := by
          rw [← hD]
          exact List.take_length D
        rw [htk]
        have hz : n - n = 0 := by omega
        rw [hz, getBytesLoop, if_pos rfl]

/-- The getWideString truncation loop assembles exactly the driver's
remaining code units when entered with `remaining` equal to their
count. -/
theorem getWideLoop_complete (bufSize : Nat) (hbuf : 2 ≤ bufSize) :
    ∀ n (D : List Nat), D.length = n → ∀ acc,
      getWideLoop bufSize hbuf n (some D) acc = acc ++ D := by
  intro n
  induction n using Nat.strong_induction_on with
  | _ n ih =>
    intro D hD acc
    by_cases h0 : n = 0
    · subst h0
      have hDnil : D = [] := List.length_eq_zero.mp hD
      subst hDnil
      rw [getWideLoop, if_pos rfl]
      simp
    · rw [getWideLoop, if_neg h0]
      dsimp only
      have h22 : min (n + 1) bufSize * 2 / 2 = min (n + 1) bufSize :=
        Nat.mul_div_cancel _ (by norm_num)
      by_cases hbig : min (n + 1) bufSize * 2 / 2 - 1 < D.length
      · rw [show getDataWide (some D) (min (n + 1) bufSize * 2)
            = ⟨SQL_SUCCESS_WITH_INFO, D.take (min (n + 1) bufSize * 2 / 2 - 1),
               (2 * D.length : Int),
               some (D.drop (min (n + 1) bufSize * 2 / 2 - 1))⟩ from by
          simp only [getDataWide]
          rw [if_pos hbig]]
        rw [if_neg (fun hcon => hcon.2 rfl)]
        rw [if_neg (by
          rintro (h | h)
          · exact (by decide : ¬(SQL_SUCCESS_WITH_INFO = SQL_NO_DATA)) h
          · have h2 : (2 * (D.length : Int)) = -1 := h
            omega)]
        rw [h22] at hbig
        rw [h22]
        have hcopy : min (((2 * (D.length : Int))).toNat / 2) (min (n + 1) bufSize - 1)
            = min (n + 1) bufSize - 1 := by
          omega
        rw [hcopy, List.take_take, Nat.min_self]
        have hlt : n - (min (n + 1) bufSize - 1) < n := by omega
        rw [ih (n - (min (n + 1) bufSize - 1)) hlt
            (D.drop (min (n + 1) bufSize - 1))
            (by rw [List.length_drop]; omega)
            (acc ++ D.take (min (n + 1) bufSize - 1))]
        rw [List.append_assoc, List.take_append_drop]
      · rw [show getDataWide (some D) (min (n + 1) bufSize * 2)
            = ⟨SQL_SUCCESS, D, (2 * D.length : Int), none⟩ from by
          simp only [getDataWide]
          rw [if_neg hbig]]
        rw [if_neg (fun hcon => hcon.1 (by decide : IsSuccess SQL_SUCCESS = true))]
        rw [if_neg (by
          rintro (h | h)
          · exact (by decide : ¬(SQL_SUCCESS = SQL_NO_DATA)) h
          · have h2 : (2 * (D.length : Int)) = -1 := h
            omega)]
        rw [h22] at hbig
        have hcopy : min (((2 * (D.length : Int))).toNat / 2) (min (n + 1) bufSize - 1)
            = n := by
          omega
        rw [hcopy]
        have htk : D.take n = D := by
          rw [← hD]
          exact List.take_length D
        rw [htk]
        have hz : n - n = 0 := by omega
        rw [hz, getWideLoop, if_pos rfl]

/-- getString assembles the driver's full value when it is longer than
the initial buffer's data capacity. -/
theorem getStringGo_complete (colSize : Nat) (D : List Nat)
    (hbig : clampBufChar colSize - 1 < D.length) :
    getStringGo colSize D = FetchResult.value D := by
  have hb := clampBufChar_ge colSize
  unfold getStringGo
  dsimp only
  rw [show getDataChar (some D) (clampBufChar colSize)
      = ⟨SQL_SUCCESS_WITH_INFO, D.take (clampBufChar colSize - 1),
         (D.length : Int), some (D.drop (clampBufChar colSize - 1))⟩ from by
    simp only [getDataChar]
    rw [if_pos hbig]]
  rw [if_neg (fun hcon => hcon.2 rfl)]
  rw [if_neg (fun h => natCast_ne_nullData D.length h)]
  rw [if_pos ⟨rfl, by
    show ((clampBufChar colSize : Int)) - 1 < (D.length : Int)
    omega⟩]
  rw [Int.toNat_natCast, List.take_take, Nat.min_self]
  rw [getStringLoop_complete (clampBufChar colSize)
      (Nat.le_trans (by norm_num) (clampBufChar_ge colSize))
      (D.length - (clampBufChar colSize - 1))
      (D.drop (clampBufChar colSize - 1))
      (by rw [List.length_drop])
      (D.take (clampBufChar colSize - 1))]
  rw [List.take_append_drop]

/-- getBytes assembles the driver's full value when it is longer than
the initial buffer. -/
theorem getBytesGo_complete (colSize : Nat) (D : List Nat)
    (hbig : clampBufBin colSize < D.length) :
    getBytesGo colSize D = FetchResult.value D := by
  have hb := clampBufBin_ge colSize
  unfold getBytesGo
  dsimp only
  rw [show getDataBin (some D) (clampBufBin colSize)
      = ⟨SQL_SUCCESS_WITH_INFO, D.take (clampBufBin colSize),
         (D.length : Int), some (D.drop (clampBufBin colSize))⟩ from by
    simp only [getDataBin]
    rw [if_pos hbig]]
  rw [if_neg (fun hcon => hcon.2 rfl)]
  rw [if_neg (fun h => natCast_ne_nullData D.length h)]
  rw [if_pos ⟨rfl, by
    show ((clampBufBin colSize : Int)) < (D.length : Int)
    omega⟩]
  rw [Int.toNat_natCast, List.take_take, Nat.min_self]
  rw [getBytesLoop_complete (clampBufBin colSize)
      (Nat.le_trans (by norm_num) (clampBufBin_ge colSize))
      (D.length - clampBufBin colSize)
      (D.drop (clampBufBin colSize))
      (by rw [List.length_drop])
      (D.take (clampBufBin colSize))]
  rw [List.take_append_drop]

/-- getWideString assembles exactly the driver's code units when the
value is longer than the initial buffer's unit capacity. -/
theorem getWideUnitsGo_complete (colSize : Nat) (D : List Nat)
    (hbig : clampBufWide colSize - 1 < D.length) :
    getWideUnitsGo colSize D = FetchResult.value D := by
  have hb := clampBufWide_ge colSize
  have h22 : clampBufWide colSize * 2 / 2 = clampBufWide colSize :=
    Nat.mul_div_cancel _ (by norm_num)
  have hbig2 : clampBufWide colSize * 2 / 2 - 1 < D.length := by omega
  unfold getWideUnitsGo
  dsimp only
  rw [show getDataWide (some D) (clampBufWide colSize * 2)
      = ⟨SQL_SUCCESS_WITH_INFO, D.take (clampBufWide colSize * 2 / 2 - 1),
         (2 * D.length : Int), some (D.drop (clampBufWide colSize * 2 / 2 - 1))⟩ from by
    simp only [getDataWide]
    rw [if_pos hbig2]]
  rw [if_neg (fun hcon => hcon.2 rfl)]
  rw [if_neg (fun h => by
    have h2 : (2 * (D.length : Int)) = SQL_NULL_DATA := h
    simp only [SQL_NULL_DATA] at h2
    omega)]
  rw [if_pos ⟨rfl, by
    show ((clampBufWide colSize : Int) - 1) * 2 < 2 * (D.length : Int)
    omega⟩]
  rw [h22]
  have hdiv : ((2 * (D.length : Int))).toNat / 2 = D.length := by omega
  rw [hdiv, List.take_take, Nat.min_self]
  rw [getWideLoop_complete (clampBufWide colSize)
      (Nat.le_trans (by norm_num) (clampBufWide_ge colSize))
      (D.length - (clampBufWide colSize - 1))
      (D.drop (clampBufWide colSize - 1))
      (by rw [List.length_drop])
      (D.take (clampBufWide colSize - 1))]
  rw [List.take_append_drop]

/-- Claim C1: for every column value longer than the initial buffer
capacity (narrow strings: `clampBufChar colSize - 1` data bytes with
the buffer capped at 65536; binary: `clampBufBin colSize` bytes capped
at 65536; wide strings: `clampBufWide colSize - 1` code units with the
buffer capped at 32768 units), the truncation loop assembles exactly
the driver's data — length exactly L, byte-identical, no trailing null
— assuming the driver follows the get-data protocol modelled by
`getDataChar`/`getDataBin`/`getDataWide`; the wide result is the UTF-8
conversion of exactly those units. -/
theorem chunked_retrieval_complete (cs cb cw : Nat)
    (Ds Db Dw : List Nat)
    (hs : clampBufChar cs - 1 < Ds.length)
    (hb : clampBufBin cb < Db.length)
    (hw : clampBufWide cw - 1 < Dw.length) :
    getStringGo cs Ds = FetchResult.value Ds
    ∧ getBytesGo cb Db = FetchResult.value Db
    ∧ getWideUnitsGo cw Dw = FetchResult.value Dw
    ∧ getWideStringGo cw Dw = FetchResult.value (utf16ToString Dw) := by
  refine ⟨getStringGo_complete cs Ds hs, getBytesGo_complete cb Db hb,
    getWideUnitsGo_complete cw Dw hw, ?_⟩
  unfold getWideStringGo
  rw [getWideUnitsGo_complete cw Dw hw]

/-- Witness for C1 with a 300-byte value against the minimum 256-byte
buffer (256 units for the wide variant). -/
theorem chunked_retrieval_complete_witness :
    getStringGo 0 (List.replicate 300 7) = FetchResult.value (List.replicate 300 7)
    ∧ getBytesGo 0 (List.replicate 300 7) = FetchResult.value (List.replicate 300 7) :=
  ⟨(chunked_retrieval_complete 0 0 0 (List.replicate 300 7) (List.replicate 300 7)
      (List.replicate 300 65) (by norm_num [clampBufChar])
      (by norm_num [clampBufBin]) (by norm_num [clampBufWide])).1,
   (chunked_retrieval_complete 0 0 0 (List.replicate 300 7) (List.replicate 300 7)
      (List.replicate 300 65) (by norm_num [clampBufChar])
      (by norm_num [clampBufBin]) (by norm_num [clampBufWide])).2.1⟩

/-- Claim C10: ExecBatch on a closed statement returns
`driver.ErrBadConn` for every parameter-set list; on an open statement
with an empty parameter-set list it returns the zero `BatchResult`
(total 0, empty row counts and errors) and nil error, with no driver
call — for every possible array-binding/fallback body. -/
theorem execBatch_dispatch {α : Type} (paramSets : List (List Int))
    (body : List (List Int) → BatchResult → BatchResult × List α) :
    ExecBatch true paramSets body = Except.error BatchErr.badConn
    ∧ ExecBatch false [] body = Except.ok (⟨0, [], []⟩, ([] : List α)) :=
  ⟨rfl, rfl⟩

/-- Decoding passes a non-high-surrogate unit through unchanged. -/
theorem utf16ToString_cons_low (r : Nat) (rest : List Nat)
    (h : ¬(0xD800 ≤ r ∧ r ≤ 0xDBFF)) :
    utf16ToString (r :: rest) = r :: utf16ToString rest := by
  match rest with
  | [] => rfl
  | r2 :: rest2 => simp [utf16ToString, h]

/-- Decoding consumes a high surrogate followed by a low surrogate as
one pair. -/
theorem utf16ToString_cons_pair (r r2 : Nat) (rest2 : List Nat)
    (h1 : 0xD800 ≤ r ∧ r ≤ 0xDBFF) (h2 : 0xDC00 ≤ r2 ∧ r2 ≤ 0xDFFF) :
    utf16ToString (r :: r2 :: rest2)
      = (((r - 0xD800) <<< 10) + (r2 - 0xDC00) + 0x10000) :: utf16ToString rest2 := by
  simp [utf16ToString, h1, h2]

/-- The decoder undoes the encoder body on any list of valid scalars,
for every continuation of the unit stream. -/
theorem utf16_enc_dec (s : List Nat) (hs : ∀ r ∈ s, ValidScalar r)
    (t : List Nat) :
    utf16ToString (stringToUTF16Body s ++ t) = s ++ utf16ToString t := by
  induction s with
  | nil => simp [stringToUTF16Body]
  | cons e s ih =>
    have he : ValidScalar e := hs e (by simp)
    have hrest : ∀ r ∈ s, ValidScalar r := fun r hr => hs r (by simp [hr])
    obtain ⟨hle, hnsur⟩ := he
    by_cases hbig : 0xFFFF < e
    · have hxlt : e - 0x10000 < 2 ^ 20 := by omega
      have hdiv : (e - 0x10000) >>> 10 = (e - 0x10000) / 1024 := by
        have h := Nat.shiftRight_eq_div_pow (e - 0x10000) 10
        norm_num at h
        exact h
      have hand : (e - 0x10000) &&& 0x3FF = (e - 0x10000) % 1024 := by
        have h := Nat.and_pow_two_sub_one_eq_mod (e - 0x10000) 10
        norm_num at h
        exact h
      have hdivle : (e - 0x10000) / 1024 ≤ 1023 := by omega
      have hmodlt : (e - 0x10000) % 1024 < 1024 := Nat.mod_lt _ (by norm_num)
      have hhi : (((e - 0x10000) >>> 10) + 0xD800) % 2 ^ 16
          = (e - 0x10000) / 1024 + 0xD800 := by
        rw [hdiv]
        apply Nat.mod_eq_of_lt
        omega
      have hlo : (((e - 0x10000) &&& 0x3FF) + 0xDC00) % 2 ^ 16
          = (e - 0x10000) % 1024 + 0xDC00 := by
        rw [hand]
        apply Nat.mod_eq_of_lt
        omega
      have henc : stringToUTF16Body (e :: s)
          = ((e - 0x10000) / 1024 + 0xD800)
            :: ((e - 0x10000) % 1024 + 0xDC00) :: stringToUTF16Body s := by
        rw [show stringToUTF16Body (e :: s)
            = (((e - 0x10000) >>> 10) + 0xD800) % 2 ^ 16
              :: ((((e - 0x10000) &&& 0x3FF) + 0xDC00) % 2 ^ 16)
              :: stringToUTF16Body s from by simp [stringToUTF16Body, hbig]]
        rw [hhi, hlo]
      rw [henc, List.cons_append, List.cons_append]
      rw [utf16ToString_cons_pair _ _ _ ⟨by omega, by omega⟩ ⟨by omega, by omega⟩]
      rw [ih hrest]
      have e1 : (e - 0x10000) / 1024 + 0xD800 - 0xD800 = (e - 0x10000) / 1024 := by
        omega
      have e2 : (e - 0x10000) % 1024 + 0xDC00 - 0xDC00 = (e - 0x10000) % 1024 := by
        omega
      rw [e1, e2, Nat.shiftLeft_eq]
      have hdm := Nat.div_add_mod (e - 0x10000) 1024
      have : (e - 0x10000) / 1024 * 2 ^ 10 + (e - 0x10000) % 1024 + 0x10000 = e := by
        norm_num
        omega
      rw [this, List.cons_append]
    · have henc : stringToUTF16Body (e :: s) = e % 2 ^ 16 :: stringToUTF16Body s := by
        simp [stringToUTF16Body, hbig]
      have hmod : e % 2 ^ 16 = e := Nat.mod_eq_of_lt (by omega)
      rw [henc, hmod, List.cons_append, utf16ToString_cons_low e _ (by omega)]
      rw [ih hrest, List.cons_append]

/-- Claim C4: for every scalar in `[U+10000, U+10FFFF]` the encoder
emits the surrogate pair `((cp − 0x10000) >> 10) + 0xD800` (a high
surrogate) followed by `((cp − 0x10000) & 0x3FF) + 0xDC00` (a low
surrogate), the decoder recovers the scalar from that pair, and for
every valid Go string — a list of non-surrogate scalars — decoding the
encoded code units minus the trailing zero yields the original. -/
theorem utf16_surrogate_roundtrip (cp : Nat)
    (hcp1 : 0x10000 ≤ cp) (hcp2 : cp ≤ 0x10FFFF)
    (s : List Nat) (hs : ∀ r ∈ s, ValidScalar r) :
    stringToUTF16 [cp] = [((cp - 0x10000) >>> 10) + 0xD800,
                          ((cp - 0x10000) &&& 0x3FF) + 0xDC00, 0]
    ∧ (0xD800 ≤ ((cp - 0x10000) >>> 10) + 0xD800
        ∧ ((cp - 0x10000) >>> 10) + 0xD800 ≤ 0xDBFF)
    ∧ (0xDC00 ≤ ((cp - 0x10000) &&& 0x3FF) + 0xDC00
        ∧ ((cp - 0x10000) &&& 0x3FF) + 0xDC00 ≤ 0xDFFF)
    ∧ utf16ToString [((cp - 0x10000) >>> 10) + 0xD800,
                     ((cp - 0x10000) &&& 0x3FF) + 0xDC00] = [cp]
    ∧ utf16ToString (stringToUTF16 s).dropLast = s := by
  have hdiv : (cp - 0x10000) >>> 10 = (cp - 0x10000) / 1024 := by
    have h := Nat.shiftRight_eq_div_pow (cp - 0x10000) 10
    norm_num at h
    exact h
  have hand : (cp - 0x10000) &&& 0x3FF = (cp - 0x10000) % 1024 := by
    have h := Nat.and_pow_two_sub_one_eq_mod (cp - 0x10000) 10
    norm_num at h
    exact h
  have hdivle : (cp - 0x10000) / 1024 ≤ 1023 := by omega
  have hmodlt : (cp - 0x10000) % 1024 < 1024 := Nat.mod_lt _ (by norm_num)
  have hbig : 0xFFFF < cp := by omega
  refine ⟨?_, ⟨by omega, by omega⟩, ⟨by omega, by omega⟩, ?_, ?_⟩
  · rw [show stringToUTF16 [cp]
        = (((cp - 0x10000) >>> 10) + 0xD800) % 2 ^ 16
          :: ((((cp - 0x10000) &&& 0x3FF) + 0xDC00) % 2 ^ 16) :: [0] from by
      simp [stringToUTF16, stringToUTF16Body, hbig]]
    rw [hdiv, hand]
    rw [Nat.mod_eq_of_lt (by omega), Nat.mod_eq_of_lt (by omega)]
  · rw [utf16ToString_cons_pair _ _ _ ⟨by omega, by omega⟩ ⟨by omega, by omega⟩]
    rw [hdiv, hand]
    have e1 : (cp - 0x10000) / 1024 + 0xD800 - 0xD800 = (cp - 0x10000) / 1024 := by
      omega
    have e2 : (cp - 0x10000) % 1024 + 0xDC00 - 0xDC00 = (cp - 0x10000) % 1024 := by
      omega
    rw [e1, e2, Nat.shiftLeft_eq]
    have hdm := Nat.div_add_mod (cp - 0x10000) 1024
    have : (cp - 0x10000) / 1024 * 2 ^ 10 + (cp - 0x10000) % 1024 + 0x10000 = cp := by
      norm_num
      omega
    rw [this]
    rfl
  · rw [show (stringToUTF16 s).dropLast = stringToUTF16Body s from by
      simp [stringToUTF16]]
    have h := utf16_enc_dec s hs []
    simpa [utf16ToString] using h

/-- Witness for C4 at `cp = U+1F600` and `s = [72, 128512]`. -/
theorem utf16_surrogate_roundtrip_witness :
    utf16ToString (stringToUTF16 [72, 128512]).dropLast = [72, 128512]
    ∧ stringToUTF16 [128512] = [((128512 - 0x10000) >>> 10) + 0xD800,
        ((128512 - 0x10000) &&& 0x3FF) + 0xDC00, 0] :=
  ⟨(utf16_surrogate_roundtrip 128512 (by norm_num) (by norm_num) [72, 128512]
      (by
        intro r hr
        simp only [List.mem_cons, List.not_mem_nil, or_false] at hr
        rcases hr with rfl | rfl
        · exact ⟨by norm_num, by omega⟩
        · exact ⟨by norm_num, by omega⟩)).2.2.2.2,
   (utf16_surrogate_roundtrip 128512 (by norm_num) (by norm_num) [72, 128512]
      (by
        intro r hr
        simp only [List.mem_cons, List.not_mem_nil, or_false] at hr
        rcases hr with rfl | rfl
        · exact ⟨by norm_num, by omega⟩
        · exact ⟨by norm_num, by omega⟩)).1⟩

end Godbc
